import Mathlib

/-!
Shallow embedding of the go-pipeline repository (pipeline orchestration
engine) and proofs about its specification claims.

Go values of type `any` holding YAML-derived data are modelled by `GoVal`;
Go strings are Lean strings (the functions embedded here only manipulate
ASCII, where Go byte indexing and Lean char indexing agree).  Go maps are
modelled either by entry lists (when the code iterates over them) or by
finite functions `String → Option α` (when the code only inserts and looks
up); Go map iteration order is modelled as entry-list order.
-/

namespace GoPipeline

/-- Model of a Go `any` value restricted to the YAML data universe the
repository manipulates (`nil`, strings, integers, booleans, `[]any`,
`map[string]any`). -/
inductive GoVal where
  | null : GoVal
  | str (s : String) : GoVal
  | int (n : Int) : GoVal
  | bool (b : Bool) : GoVal
  | arr (items : List GoVal) : GoVal
  | map (fields : List (String × GoVal)) : GoVal

/-- Go map lookup `m[k]` on an entry list (keys unique in a Go map). -/
def alookup {α : Type} : List (String × α) → String → Option α
  | [], _ => none
  | (k, v) :: rest, key => if key = k then some v else alookup rest key

/-- `config.DependencyRef` (src/config/pipeline.go). -/
structure DependencyRef where
  StageID : String
  Branch : String
deriving DecidableEq

/-- Index of the last occurrence of `c`: the Go loop in `ParseDependency`
scans from the end of the string and stops at the first `':'` found. -/
def lastIndexOfChar (c : Char) : List Char → Option Nat
  | [] => none
  | x :: xs =>
    match lastIndexOfChar c xs with
    | some i => some (i + 1)
    | none => if x = c then some 0 else none

/-- Core of `config.ParseDependency` on the character list of the input. -/
def parseDependencyCore (cs : List Char) : List Char × List Char :=
  match lastIndexOfChar ':' cs with
  | none => (cs, [])
  | some i =>
    if i = cs.length - 1 then (cs, [])
    else (cs.take i, cs.drop (i + 1))

/-- `config.ParseDependency` (src/config/pipeline.go): split a dependency
string at the last colon; no colon, or a colon in last position, yields the
whole string as the stage id with an empty branch. -/
def ParseDependency (dep : String) : DependencyRef :=
  ⟨String.mk (parseDependencyCore dep.data).1,
   String.mk (parseDependencyCore dep.data).2⟩

/-- `config.ValueSpec` and its implementations: `StaticValue`,
`DynamicValue{Language, Expression, Type}`, `VariableReference`,
`SecretReference`, `EnvReference` (src/config/value.go) and
`builder.StructuredBody{Fields, Array}` (exactly one of the two fields is
populated by the body resolver, modelled by two constructors). -/
inductive ValueSpec where
  | static (v : GoVal)
  | dynamic (language expression ty : String)
  | varRef (name : String)
  | secretRef (name : String)
  | envRef (name : String)
  | structFields (fields : List (String × ValueSpec))
  | structArray (items : List ValueSpec)

/-- `IsStatic()`: true only for `StaticValue` (every other implementation
returns false, including `StructuredBody`). -/
def ValueSpec.IsStatic : ValueSpec → Bool
  | .static _ => true
  | _ => false

/-- `GetStaticValue()`: the `(any, bool)` pair is modelled by `Option`. -/
def ValueSpec.GetStaticValue : ValueSpec → Option GoVal
  | .static v => some v
  | _ => none

/-- `GetDynamicExpression()`: the `(DynamicValue, bool)` pair is modelled
by `Option` over the `(language, expression, type)` triple. -/
def ValueSpec.GetDynamicExpression : ValueSpec → Option (String × String × String)
  | .dynamic l e t => some (l, e, t)
  | _ => none

/-- `config.NewStaticValue`. -/
def NewStaticValue (v : GoVal) : ValueSpec := .static v

/-- ASCII part of Go `unicode.IsSpace`, used by `strings.TrimSpace`. -/
def goIsSpace (c : Char) : Bool :=
  c == ' ' || c == '\t' || c == '\n' || c == '\r' || c == '\x0b' || c == '\x0c'

/-- `strings.TrimSpace` on the character list. -/
def trimSpaceList (cs : List Char) : List Char :=
  ((cs.dropWhile goIsSpace).reverse.dropWhile goIsSpace).reverse

/-- `strings.TrimSpace`. -/
def trimSpace (s : String) : String := String.mk (trimSpaceList s.data)

/-- Helper for `strings.HasPrefix`: the first argument is the prefix. -/
def goPrefixAux : List Char → List Char → Bool
  | [], _ => true
  | _ :: _, [] => false
  | p :: ps, c :: cs => p == c && goPrefixAux ps cs

/-- `strings.HasPrefix(s, pre)`. -/
def goHasPrefix (s pre : String) : Bool := goPrefixAux pre.data s.data

/-- Input universe of `builder.ParseConfigValue`: a Go `any` that either
already holds a `config.ValueSpec` or holds a plain value. -/
inductive ConfigAny where
  | vs (s : ValueSpec)
  | val (g : GoVal)

/-- `builder.ParseConfigValue` (src/unnamed/part_004, the current registry
builder): returns `ValueSpec` inputs unchanged, maps the four prefix
sigils to their `ValueSpec` variants (trimming whitespace after the
prefix), and wraps everything else in `StaticValue`. -/
def ParseConfigValue : ConfigAny → ValueSpec
  | .vs s => s
  | .val (GoVal.str s) =>
    if goHasPrefix s ("$js:") then
      .dynamic ("js") (trimSpace (String.mk (s.data.drop 4))) ("")
    else if goHasPrefix s ("$var:") then
      .varRef (trimSpace (String.mk (s.data.drop 5)))
    else if goHasPrefix s ("$secret:") then
      .secretRef (trimSpace (String.mk (s.data.drop 8)))
    else if goHasPrefix s ("$env:") then
      .envRef (trimSpace (String.mk (s.data.drop 5)))
    else .static (GoVal.str s)
  | .val g => .static g

/-- `config.ParameterDef` (the `$type`/`$description` fields are carried
but unused by the embedded functions). -/
structure ParameterDef where
  Required : Bool
  Optional : Bool
  Default : Option GoVal
  ty : String
  descr : String

/-- `ParameterDef.IsRequired()`. -/
def ParameterDef.IsRequired (p : ParameterDef) : Bool :=
  p.Required && !p.Optional

/-- `ParameterDef.IsOptional()`. -/
def ParameterDef.IsOptional (p : ParameterDef) : Bool :=
  p.Optional || !p.Required

/-- Go map assignment `m[k] = v` on a map modelled as a finite function. -/
def mapUpsert {α : Type} (m : String → Option α) (k : String) (v : α) :
    String → Option α :=
  fun x => if x = k then some v else m x

/-- One Go `for name, x := range entries` loop that conditionally inserts
`f x` under `name` (shared shape of the three loops of `mergeParams`). -/
def foldPut {α : Type} (f : α → Option ValueSpec)
    (entries : List (String × α)) (base : String → Option ValueSpec) :
    String → Option ValueSpec :=
  entries.foldl
    (fun acc np =>
      match f np.2 with
      | some v => mapUpsert acc np.1 v
      | none => acc)
    base

/-- The value inserted for a parameter default:
`config.NewStaticValue(paramDef.Default)` when `paramDef.Default != nil`. -/
def defaultStatic (pd : ParameterDef) : Option ValueSpec :=
  pd.Default.map (fun d => NewStaticValue d)

/-- `BodyResolver.mergeParams` (src/unnamed/part_005): start from the
service-level `GlobalParams` defaults, overlay the operation-level
`Params` defaults, then overlay the user-supplied parameters. -/
def mergeParams (globalParams opParams : List (String × ParameterDef))
    (userParams : List (String × ValueSpec)) : String → Option ValueSpec :=
  foldPut (fun v => some v) userParams
    (foldPut defaultStatic opParams
      (foldPut defaultStatic globalParams (fun _ => none)))

/-- External effects the resolver can reach through `ValueSpec.Resolve`:
the goja JavaScript sandbox and the process environment.  The embedded
theorems hold for every choice of these oracles. -/
structure Extern where
  jsEval : String → String → Except String GoVal
  getenv : String → String

mutual

/-- Go `==` on interface values, used by the `$equals` operator
(structural equality; Go would panic on non-comparable values, a case no
claim exercises). -/
def GoVal.beq : GoVal → GoVal → Bool
  | .null, .null => true
  | .str a, .str b => a == b
  | .int a, .int b => a == b
  | .bool a, .bool b => a == b
  | .arr a, .arr b => GoVal.beqItems a b
  | .map a, .map b => GoVal.beqFields a b
  | _, _ => false

def GoVal.beqItems : List GoVal → List GoVal → Bool
  | [], [] => true
  | a :: as, b :: bs => GoVal.beq a b && GoVal.beqItems as bs
  | _, _ => false

def GoVal.beqFields : List (String × GoVal) → List (String × GoVal) → Bool
  | [], [] => true
  | (k1, a) :: as, (k2, b) :: bs =>
    k1 == k2 && GoVal.beq a b && GoVal.beqFields as bs
  | _, _ => false

end

mutual

/-- `ValueSpec.Resolve` called with the empty `StepInput`
(`&models.StepInput{Data: make(...)}`) exactly as `evaluateCondition` and
`resolveArrayTemplate` do: static values return themselves, dynamic
expressions go to the JS sandbox, variable and secret references fail
(no global maps are defined on the empty input), environment references
read the process environment, and `StructuredBody` resolves its members
recursively. -/
def resolveEmpty (ext : Extern) : ValueSpec → Except String GoVal
  | .static v => .ok v
  | .dynamic lang expr _ =>
    if lang = ("js") ∨ lang = ("javascript") ∨ lang = ("") then
      ext.jsEval lang expr
    else .error (("unsupported language: ") ++ lang)
  | .varRef name =>
    .error (("variable '") ++ name ++ ("' not found: no global variables defined"))
  | .secretRef name =>
    .error (("secret '") ++ name ++ ("' not found: no global secrets defined"))
  | .envRef name =>
    if ext.getenv name = ("") then
      .error (("environment variable '") ++ name ++ ("' is not set or is empty"))
    else .ok (.str (ext.getenv name))
  | .structFields fields =>
    match resolveEmptyFields ext fields with
    | .error e => .error e
    | .ok out => .ok (.map out)
  | .structArray items =>
    match resolveEmptyItems ext items with
    | .error e => .error e
    | .ok out => .ok (.arr out)

def resolveEmptyFields (ext : Extern) :
    List (String × ValueSpec) → Except String (List (String × GoVal))
  | [] => .ok []
  | (k, v) :: rest =>
    match resolveEmpty ext v with
    | .error e => .error (("failed to resolve field '") ++ k ++ ("': ") ++ e)
    | .ok g =>
      match resolveEmptyFields ext rest with
      | .error e => .error e
      | .ok out => .ok ((k, g) :: out)

def resolveEmptyItems (ext : Extern) :
    List ValueSpec → Except String (List GoVal)
  | [] => .ok []
  | v :: rest =>
    match resolveEmpty ext v with
    | .error e => .error (("failed to resolve array item: ") ++ e)
    | .ok g =>
      match resolveEmptyItems ext rest with
      | .error e => .error e
      | .ok out => .ok (g :: out)

end

/-- `BodyResolver.valueExists` (src/unnamed/part_005): nil, the empty
string, an empty array and an empty map are empty; everything else
(including numeric zero and boolean false) exists. -/
def valueExists : GoVal → Bool
  | .null => false
  | .str s => s != ("")
  | .arr items => decide (0 < items.length)
  | .map fields => decide (0 < fields.length)
  | _ => true

/-- `BodyResolver.evaluateCondition` (src/unnamed/part_005): requires
`$param` (as a string); `$exists` (as a bool) is answered from presence
alone; otherwise an absent parameter makes the condition false, and a
present one is resolved and tested with `$equals`, `$not_empty` (bool),
`$is_empty` (bool), falling back to the implicit non-empty test when none
of those keys applies.  Note that the code never checks `$not_equals`. -/
def evaluateCondition (ext : Extern) (cond : List (String × GoVal))
    (params : String → Option ValueSpec) : Except String Bool :=
  match alookup cond ("$param") with
  | some (GoVal.str paramName) =>
    match alookup cond ("$exists") with
    | some (GoVal.bool ex) =>
      let paramExists := (params paramName).isSome
      .ok (if ex then paramExists else !paramExists)
    | _ =>
      match params paramName with
      | none => .ok false
      | some paramValue =>
        match resolveEmpty ext paramValue with
        | .error e =>
          .error (("failed to resolve parameter '") ++ paramName ++ ("': ") ++ e)
        | .ok resolved =>
          match alookup cond ("$equals") with
          | some eqv => .ok (GoVal.beq resolved eqv)
          | none =>
            match alookup cond ("$not_empty") with
            | some (GoVal.bool ne) =>
              .ok (if ne then valueExists resolved else !valueExists resolved)
            | _ =>
              match alookup cond ("$is_empty") with
              | some (GoVal.bool ie) =>
                .ok (if ie then !valueExists resolved else valueExists resolved)
              | _ => .ok (valueExists resolved)
  | _ => .error ("condition must have $param")

/-! ## The recursive body resolver (src/unnamed/part_005,
`builder.BodyResolver`) -/

def sizeOf_alookup_map {m : List (String × GoVal)} {k : String}
    {v : GoVal} (h : alookup m k = some v) : sizeOf v < sizeOf m := by
  induction m with
  | nil => simp [alookup] at h
  | cons e rest ih =>
    obtain ⟨k2, v2⟩ := e
    simp only [alookup] at h
    by_cases hk : k = k2
    · rw [if_pos hk] at h
      cases h
      simp
      omega
    · rw [if_neg hk] at h
      have := ih h
      simp
      omega

mutual

/-- `BodyResolver.resolveBodyField` (src/unnamed/part_005): dispatch on
the shape of the node; scalars become static values.  The `(ValueSpec,
error)` Go result with a possibly-nil `ValueSpec` is modelled by
`Except String (Option ValueSpec)` with `none` meaning *omitted*. -/
def resolveBodyField (ext : Extern) (opParams : List (String × ParameterDef))
    (field : GoVal) (params : String → Option ValueSpec) :
    Except String (Option ValueSpec) :=
  match field with
  | .map m => resolveBodyMap ext opParams m params
  | .arr a => resolveBodyArray ext opParams a params
  | g => .ok (some (NewStaticValue g))
termination_by (sizeOf field, 0)
decreasing_by
  all_goals simp_wf
  all_goals exact Prod.Lex.left _ _ (by first | omega | (simp; omega))

/-- `BodyResolver.resolveBodyMap`: `$if` conditionals, `$for_each` array
templates and `$param` references are recognized in this order; any other
map is a plain nested object whose fields are resolved recursively, with
omitted fields dropped and an all-static result collapsed to a static
map. -/
def resolveBodyMap (ext : Extern) (opParams : List (String × ParameterDef))
    (m : List (String × GoVal)) (params : String → Option ValueSpec) :
    Except String (Option ValueSpec) :=
  if (alookup m ("$if")).isSome then resolveConditional ext opParams m params
  else if (alookup m ("$for_each")).isSome then
    resolveArrayTemplate ext opParams m params
  else
    match alookup m ("$param") with
    | some (GoVal.str paramName) =>
      match params paramName with
      | some v => .ok (some v)
      | none =>
        match alookup opParams paramName with
        | some pd =>
          if pd.IsOptional then .ok none
          else .error (("parameter '") ++ paramName ++ ("' not found"))
        | none => .error (("parameter '") ++ paramName ++ ("' not found"))
    | _ =>
      match resolveFields ext opParams m params with
      | .error e => .error e
      | .ok resolvedFields =>
        if resolvedFields.all (fun kv => kv.2.IsStatic) then
          .ok (some (NewStaticValue (.map (resolvedFields.map
            (fun kv => (kv.1, kv.2.GetStaticValue.getD .null))))))
        else .ok (some (.structFields resolvedFields))
termination_by (sizeOf m, 4)
decreasing_by
  all_goals simp_wf
  all_goals exact Prod.Lex.right _ (by omega)

/-- The `for key, value := range m` loop of `resolveBodyMap`: resolve
every field, drop omitted ones, wrap errors with the field name. -/
def resolveFields (ext : Extern) (opParams : List (String × ParameterDef))
    (m : List (String × GoVal)) (params : String → Option ValueSpec) :
    Except String (List (String × ValueSpec)) :=
  match m with
  | [] => .ok []
  | (key, value) :: rest =>
    match resolveBodyField ext opParams value params with
    | .error e => .error (("field '") ++ key ++ ("': ") ++ e)
    | .ok none => resolveFields ext opParams rest params
    | .ok (some r) =>
      match resolveFields ext opParams rest params with
      | .error e => .error e
      | .ok rf => .ok ((key, r) :: rf)
termination_by (sizeOf m, 0)
decreasing_by
  all_goals simp_wf
  all_goals exact Prod.Lex.left _ _ (by first | omega | (simp; omega))

/-- `BodyResolver.resolveConditional`: evaluate the `$if` condition and
resolve the chosen branch; a missing branch omits the whole node. -/
def resolveConditional (ext : Extern) (opParams : List (String × ParameterDef))
    (m : List (String × GoVal)) (params : String → Option ValueSpec) :
    Except String (Option ValueSpec) :=
  match hif : alookup m ("$if") with
  | some (GoVal.map ifCond) =>
    match evaluateCondition ext ifCond params with
    | .error e => .error (("failed to evaluate condition: ") ++ e)
    | .ok conditionMet =>
      if conditionMet then
        match hth : alookup m ("$then") with
        | some thenVal => resolveBodyField ext opParams thenVal params
        | none => .ok none
      else
        match hel : alookup m ("$else") with
        | some elseVal => resolveBodyField ext opParams elseVal params
        | none => .ok none
  | _ => .error ("invalid conditional structure: $if must be a map")
termination_by (sizeOf m, 3)
decreasing_by
  all_goals simp_wf
  all_goals first
    | exact Prod.Lex.left _ _ (sizeOf_alookup_map hth)
    | exact Prod.Lex.left _ _ (sizeOf_alookup_map hel)

/-- `BodyResolver.resolveArrayTemplate`: the `$for_each` parameter must
resolve to an array; the `$template` node is resolved once per element
with `$item` bound to the element, omitted results are dropped, and an
all-static result collapses to a static array. -/
def resolveArrayTemplate (ext : Extern)
    (opParams : List (String × ParameterDef)) (m : List (String × GoVal))
    (params : String → Option ValueSpec) :
    Except String (Option ValueSpec) :=
  match alookup m ("$for_each") with
  | some (GoVal.str forEach) =>
    match htp : alookup m ("$template") with
    | none => .error ("array template must have $template")
    | some template =>
      match params forEach with
      | none => .error (("array parameter '") ++ forEach ++ ("' not found"))
      | some arrayParam =>
        match resolveEmpty ext arrayParam with
        | .error e =>
          .error (("failed to resolve array parameter '") ++ forEach ++ ("': ") ++ e)
        | .ok (GoVal.arr array) =>
          match resolveTemplateItems ext opParams template params array with
          | .error e => .error e
          | .ok resolvedItems =>
            if resolvedItems.all (fun it => it.IsStatic) then
              .ok (some (NewStaticValue (.arr (resolvedItems.map
                (fun it => it.GetStaticValue.getD .null)))))
            else .ok (some (.structArray resolvedItems))
        | .ok _ => .error (("parameter '") ++ forEach ++ ("' is not an array"))
  | _ => .error ("array template must have $for_each parameter as string")
termination_by (sizeOf m, 2)
decreasing_by
  all_goals simp_wf
  all_goals exact Prod.Lex.left _ _ (sizeOf_alookup_map htp)

/-- The `for i, item := range array` loop of `resolveArrayTemplate`:
resolve the template with `$item` bound, drop omitted results. -/
def resolveTemplateItems (ext : Extern)
    (opParams : List (String × ParameterDef)) (template : GoVal)
    (params : String → Option ValueSpec) (array : List GoVal) :
    Except String (List ValueSpec) :=
  match array with
  | [] => .ok []
  | item :: rest =>
    match resolveBodyField ext opParams template
        (mapUpsert params ("$item") (NewStaticValue item)) with
    | .error e => .error (("failed to resolve template for array item: ") ++ e)
    | .ok none => resolveTemplateItems ext opParams template params rest
    | .ok (some r) =>
      match resolveTemplateItems ext opParams template params rest with
      | .error e => .error e
      | .ok out => .ok (r :: out)
termination_by (sizeOf template, array.length + 1)
decreasing_by
  all_goals simp_wf
  all_goals exact Prod.Lex.right _ (by first | omega | (simp; omega))

/-- `BodyResolver.resolveBodyArray`: resolve every item, drop omitted
ones, collapse an all-static result to a static array. -/
def resolveBodyArray (ext : Extern) (opParams : List (String × ParameterDef))
    (arr : List GoVal) (params : String → Option ValueSpec) :
    Except String (Option ValueSpec) :=
  match resolveItems ext opParams arr params with
  | .error e => .error e
  | .ok resolvedItems =>
    if resolvedItems.all (fun it => it.IsStatic) then
      .ok (some (NewStaticValue (.arr (resolvedItems.map
        (fun it => it.GetStaticValue.getD .null)))))
    else .ok (some (.structArray resolvedItems))
termination_by (sizeOf arr, 1)
decreasing_by
  all_goals simp_wf
  all_goals exact Prod.Lex.right _ (by omega)

/-- The `for i, item := range arr` loop of `resolveBodyArray`. -/
def resolveItems (ext : Extern) (opParams : List (String × ParameterDef))
    (arr : List GoVal) (params : String → Option ValueSpec) :
    Except String (List ValueSpec) :=
  match arr with
  | [] => .ok []
  | item :: rest =>
    match resolveBodyField ext opParams item params with
    | .error e => .error (("array item: ") ++ e)
    | .ok none => resolveItems ext opParams rest params
    | .ok (some r) =>
      match resolveItems ext opParams rest params with
      | .error e => .error e
      | .ok out => .ok (r :: out)
termination_by (sizeOf arr, 0)
decreasing_by
  all_goals simp_wf
  all_goals exact Prod.Lex.left _ _ (by first | omega | (simp; omega))

end

/-- Whether the resolved form of a plain body map still binds the key
`k`: for the static collapse, a key of the static Go map; for a mixed
result, a key of the `StructuredBody` fields. -/
def resolvedMapHasKey (spec : ValueSpec) (k : String) : Bool :=
  match spec with
  | .static (.map sm) => (alookup sm k).isSome
  | .structFields rf => (alookup rf k).isSome
  | _ => false

/-- `models.StepOutput`: `Data` is the `NamedOutputs` map label → value
(the `Timestamp` field plays no role in the embedded claims). -/
structure StepOutput where
  Data : List (String × GoVal)
  EventID : String

/-- `models.StepInput`: `Data` maps upstream stage id → its
`NamedOutputs` (global variable/secret maps and the timestamp play no
role in the embedded claims). -/
structure StepInput where
  Data : List (String × List (String × GoVal))
  EventID : String

/-- The shared shape of every non-trigger step's `Run` goroutine (`JsStep`
in src/steps/cron.go, `HTTPClientStep` in src/unnamed/part_009, and the
delay/json/foreach/if steps): `for input := range inputs` computes a
per-event result (the step-specific work — JS evaluation, the HTTP round
trip — abstracted as `f`); success sends one `StepOutput` whose `EventID`
is the input's (`EventID: input.EventID`), while failure sends exactly one
error on the error channel and `return`s, ending the loop.  The returned
pair is (collected outputs, collected errors). -/
def runStepLoop (f : StepInput → Except String (List (String × GoVal))) :
    List StepInput → List StepOutput × List String
  | [] => ([], [])
  | i :: rest =>
    match f i with
    | .error e => ([], [e])
    | .ok d =>
      let (outs, errs) := runStepLoop f rest
      (⟨d, i.EventID⟩ :: outs, errs)

/-- Accumulator of one fan-in round of `createInputChannelV2`: the
assembled `data` map, the adopted `eventID`, and the `allClosed` flag. -/
structure RoundState where
  data : List (String × List (String × GoVal))
  eventID : String
  allClosed : Bool

/-- One round of the `for` loop in `createInputChannelV2`
(src/pipeline.go lines 426-449): read one `StepOutput` from every
dependency edge in order; a closed (exhausted) edge is skipped, a
received output contributes `data[dep.ID] = out.Data`, and the round's
event id adopts `out.EventID` whenever the accumulator is still empty.
Returns the final accumulator and the remaining per-edge streams. -/
def readRound : List (String × List StepOutput) → RoundState →
    RoundState × List (String × List StepOutput)
  | [], st => (st, [])
  | (dep, outs) :: rest, st =>
    match outs with
    | [] =>
      let (st2, rest2) := readRound rest st
      (st2, (dep, []) :: rest2)
    | o :: os =>
      let st1 : RoundState :=
        ⟨st.data ++ [(dep, o.Data)],
         if st.eventID = "" then o.EventID else st.eventID, false⟩
      let (st2, rest2) := readRound rest st1
      (st2, (dep, os) :: rest2)

/-- The outer `for` loop of `createInputChannelV2`: run rounds until
every edge is closed, emitting one assembled `StepInput` per round that
received data.  The loop is driven by fuel; `createInputChannel` supplies
enough fuel for every pending output, which `fanInLoop_single_edge` shows
is never exhausted on a single edge. -/
def fanInLoop : Nat → List (String × List StepOutput) → List StepInput
  | 0, _ => []
  | Nat.succ fuel, edges =>
    let (st, rest) := readRound edges ⟨[], "", true⟩
    if st.allClosed then []
    else
      (if 0 < st.data.length then [(⟨st.data, st.eventID⟩ : StepInput)]
       else []) ++
      fanInLoop fuel rest

/-- Total number of outputs still queued on the edges. -/
def totalPending (edges : List (String × List StepOutput)) : Nat :=
  (edges.map (fun e => e.2.length)).sum

/-- `createInputChannelV2` for a stage with dependencies: its input
stream is the round-based merge of the per-edge streams. -/
def createInputChannel (edges : List (String × List StepOutput)) :
    List StepInput :=
  fanInLoop (totalPending edges + 1) edges

/-- One stage worker for a stage with a single dependency edge: build the
input channel from the upstream outputs (fan-in over one edge) and run
the step loop, keeping the produced outputs. -/
def runStage (f : StepInput → Except String (List (String × GoVal)))
    (producerId : String) (upstream : List StepOutput) : List StepOutput :=
  (runStepLoop f (createInputChannel [(producerId, upstream)])).1

/-- The chain `A → B → C` of non-trigger stages: A consumes the injected
input events, B consumes A's edge, C consumes B's edge. -/
def chainABC (fA fB fC : StepInput → Except String (List (String × GoVal)))
    (inputsA : List StepInput) : List StepOutput :=
  runStage fC ("B") (runStage fB ("A") ((runStepLoop fA inputsA).1))

/-- Events emitted by the scheduler (src/pipeline.go `execute`): the
error-forwarding goroutine (lines 378-385) emits one `stage.error` event
per error received on the step's error channel. -/
inductive PipelineEvent where
  | stageError (stageID stepID msg : String)
  | stageOutput (stageID stepID eventID : String)
      (data : List (String × GoVal))

/-- The `for err := range errorChan` goroutine of `Pipeline.execute`:
every error is forwarded to the event bus as a `stage.error` event and
the scheduler keeps running (it never aborts the pipeline). -/
def forwardErrors (stageID stepID : String) (errs : List String) :
    List PipelineEvent :=
  errs.map (fun e => .stageError stageID stepID e)

/-- `config.StageConfig` restricted to the fields `BuildFromConfig`
reads (`step_config` is consumed by the abstracted step factory). -/
structure StageConfig where
  id : String
  stepType : String
  dependencies : List String
  inputs : List String

/-- The built pipeline: stage ids with their resolved dependency
references (`Stage.dependencyRefs`, kept by id). -/
structure PipelineModel where
  stages : List (String × List String)

/-- Phase 1 of `BuildFromConfig`: create every stage through the factory
registry (`builder.CreateStep`; the set of registered step types is the
parameter `factories`, and `GetStepFactory` fails with
`unknown step type: <t>`), collecting the stage map's ids. -/
def buildPhase1 (factories : String → Bool) :
    List StageConfig → Except String (List String)
  | [] => .ok []
  | c :: rest =>
    if factories c.stepType then
      match buildPhase1 factories rest with
      | .error e => .error e
      | .ok ids => .ok (c.id :: ids)
    else .error (("unknown step type: ") ++ c.stepType)

/-- `dependencies`, falling back to the legacy `inputs` when empty. -/
def effectiveDeps (c : StageConfig) : List String :=
  if c.dependencies = [] then c.inputs else c.dependencies

/-- The dependency-resolution loop of phase 2: every dependency string is
looked up **verbatim** in the stage map (no branch parsing), failing on
the first id that is not a stage. -/
def resolveConfigDeps (ids : List String) (stageId : String) :
    List String → Except String (List String)
  | [] => .ok []
  | depID :: rest =>
    if depID ∈ ids then
      match resolveConfigDeps ids stageId rest with
      | .error e => .error e
      | .ok ds => .ok (depID :: ds)
    else
      .error (("stage '") ++ stageId ++ ("' depends on non-existent stage '")
        ++ depID ++ ("'"))

/-- Phase 2 of `BuildFromConfig` over all stage configs. -/
def buildPhase2 (ids : List String) :
    List StageConfig → Except String (List (String × List String))
  | [] => .ok []
  | c :: rest =>
    match resolveConfigDeps ids c.id (effectiveDeps c) with
    | .error e => .error e
    | .ok ds =>
      match buildPhase2 ids rest with
      | .error e => .error e
      | .ok out => .ok ((c.id, ds) :: out)

/-- `pipeline.BuildFromConfig` (src/pipeline_builder.go): create all
stages, then resolve each dependency id against the stage map. -/
def BuildFromConfig (factories : String → Bool) (cfgs : List StageConfig) :
    Except String PipelineModel :=
  match buildPhase1 factories cfgs with
  | .error e => .error e
  | .ok ids =>
    match buildPhase2 ids cfgs with
    | .error e => .error e
    | .ok stages => .ok ⟨stages⟩

/-- The consumers a producer forwards to in `Pipeline.execute`: every
stage whose dependency list contains the producer (one dedicated channel
per such edge). -/
def consumersOf (stages : List (String × List String)) (producer : String) :
    List String :=
  (stages.filter (fun s => producer ∈ s.2)).map (fun s => s.1)

/-- The fan-out loop of `Pipeline.execute` (src/pipeline.go lines
358-376): each emitted `StepOutput` is sent **unchanged** to every
consumer edge; no branch filter of any kind is applied. -/
def fanOutDeliver (stages : List (String × List String)) (producer : String)
    (out : StepOutput) : List (String × StepOutput) :=
  (consumersOf stages producer).map (fun cid => (cid, out))

mutual

/-- Go `fmt.Sprintf("%v", v)` on the modelled value universe (scalars are
what URL templates use; for maps Go additionally sorts the keys, which
the entry-list model does not reproduce). -/
def goFmt : GoVal → String
  | .null => "<nil>"
  | .str s => s
  | .int n => toString n
  | .bool b => if b then "true" else "false"
  | .arr items => "[" ++ goFmtItems items ++ "]"
  | .map fields => "map[" ++ goFmtFields fields ++ "]"

def goFmtItems : List GoVal → String
  | [] => ""
  | [x] => goFmt x
  | x :: rest => goFmt x ++ " " ++ goFmtItems rest

def goFmtFields : List (String × GoVal) → String
  | [] => ""
  | [(k, v)] => k ++ ":" ++ goFmt v
  | (k, v) :: rest => k ++ ":" ++ goFmt v ++ " " ++ goFmtFields rest

end

/-- One character of `jsStringLiteral`'s escaping chain (the sequential
`strings.ReplaceAll` calls act independently per character). -/
def escapeJsChar (c : Char) : List Char :=
  if c = '\\' then ['\\', '\\']
  else if c = '\'' then ['\\', '\'']
  else if c = '\n' then ['\\', 'n']
  else if c = '\r' then ['\\', 'r']
  else if c = '\t' then ['\\', 't']
  else [c]

/-- `jsStringLiteral` (src/builder/builder.go): a JS single-quoted string
literal with backslash, quote and whitespace escapes; the empty string
becomes a pair of quotes. -/
def jsStringLiteral (s : String) : String :=
  if s = "" then "''"
  else String.mk ('\'' :: ((s.data.map escapeJsChar).join ++ ['\'']))

/-- `strings.Index(s, pat)`: first index at which `pat` occurs
(`none` models Go's `-1`). -/
def strIndex : List Char → List Char → Option Nat
  | [], pat => if goPrefixAux pat [] then some 0 else none
  | c :: t, pat =>
    if goPrefixAux pat (c :: t) then some 0
    else (strIndex t pat).map (fun i => i + 1)

/-- `config.HasDynamicValues` on the context entry list. -/
def HasDynamicValuesL (context : List (String × ValueSpec)) : Bool :=
  context.any (fun kv => !kv.2.IsStatic)

/-- `config.ExtractStaticValues` on the context entry list. -/
def ExtractStaticValuesL (context : List (String × ValueSpec)) :
    List (String × GoVal) :=
  context.filterMap (fun kv => kv.2.GetStaticValue.map (fun v => (kv.1, v)))

/-- The `for` loop of `convertGoTemplateToJS` (src/builder/builder.go
lines 306-364): scan for the next placeholder, convert the static part
before it to a string literal, replace the placeholder by the string
literal of a static context value or by the dynamic expression (this
version of the file appends nothing for other `ValueSpec` kinds), and
continue after the closing marker.  Recursion is driven by fuel; each
iteration consumes at least two characters, so the fuel supplied by
`convertGoTemplateToJS` is never exhausted (`convertLoop_fuel`). -/
def convertLoop (context : List (String × ValueSpec)) (tmplStr : String) :
    Nat → List Char → Except String (List String)
  | 0, _ => .error ("template conversion did not terminate")
  | Nat.succ fuel, remaining =>
    match strIndex remaining ['\x7b', '\x7b'] with
    | none =>
      if remaining = [] then .ok []
      else .ok [jsStringLiteral (String.mk remaining)]
    | some startIdx =>
      let headParts :=
        if 0 < startIdx then
          [jsStringLiteral (String.mk (remaining.take startIdx))]
        else []
      match strIndex (remaining.drop startIdx) ['\x7d', '\x7d'] with
      | none => .error (("unclosed template marker in: ") ++ tmplStr)
      | some relIdx =>
        let endIdx := startIdx + relIdx + 2
        let placeholder := (remaining.take endIdx).drop startIdx
        let varName0 :=
          trimSpace (String.mk ((placeholder.drop 2).take
            (placeholder.length - 4)))
        let varName :=
          if goHasPrefix varName0 (".") then String.mk (varName0.data.drop 1)
          else varName0
        match alookup context varName with
        | none =>
          .error (("template variable '") ++ varName ++
            ("' not found in context"))
        | some vs =>
          let mid : List String :=
            match vs.GetStaticValue with
            | some sv => [jsStringLiteral (goFmt sv)]
            | none =>
              match vs.GetDynamicExpression with
              | some le => [le.2.1]
              | none => []
          match convertLoop context tmplStr fuel (remaining.drop endIdx) with
          | .error e => .error e
          | .ok ps => .ok (headParts ++ mid ++ ps)

/-- `convertGoTemplateToJS` (src/builder/builder.go): run the placeholder
loop, then return the single non-literal part unwrapped or join all parts
with `+`. -/
def convertGoTemplateToJS (tmplStr : String)
    (context : List (String × ValueSpec)) : Except String String :=
  match convertLoop context tmplStr (tmplStr.data.length + 1) tmplStr.data with
  | .error e => .error e
  | .ok parts =>
    match parts with
    | [p] =>
      if !(goHasPrefix p ("'")) then .ok p
      else .ok (String.intercalate (" + ") parts)
    | _ => .ok (String.intercalate (" + ") parts)

/-- `renderTemplate` (src/builder/builder.go): no template markers means
the string is returned as is; an all-static context renders through Go's
template engine (the external oracle `renderGo`); a dynamic context goes
through `convertGoTemplateToJS`. -/
def renderTemplate (renderGo : String → List (String × GoVal) → Except String String)
    (tmplStr : String) (context : List (String × ValueSpec)) :
    Except String String :=
  if (strIndex tmplStr.data ['\x7b', '\x7b']).isNone then .ok tmplStr
  else if !HasDynamicValuesL context then
    renderGo tmplStr (ExtractStaticValuesL context)
  else convertGoTemplateToJS tmplStr context

/-- `strings.TrimRight(s, "/")`. -/
def trimRightSlash (s : String) : String :=
  String.mk ((s.data.reverse.dropWhile (fun c => c = '/')).reverse)

/-- `strings.TrimLeft(s, "/")`. -/
def trimLeftSlash (s : String) : String :=
  String.mk (s.data.dropWhile (fun c => c = '/'))

/-- `config.ServiceDefaults` restricted to the fields `buildURLSpec`
reads. -/
structure ServiceDefaultsM where
  BaseURL : String

/-- `config.OperationDef` restricted to the fields `buildURLSpec`
reads. -/
structure OperationDefM where
  Path : String
  QueryParams : List (String × String)

/-- The static-context branch of `buildURLSpec`: render base URL, path
and query parameters through the Go template engine and return a static
URL. -/
def buildURLStatic (renderGo : String → List (String × GoVal) → Except String String)
    (serviceDefaults : ServiceDefaultsM) (opDef : OperationDefM)
    (staticContext : List (String × GoVal)) : Except String ValueSpec :=
  match renderGo serviceDefaults.BaseURL staticContext with
  | .error e => .error (("failed to render base_url: ") ++ e)
  | .ok baseURL =>
    match renderGo opDef.Path staticContext with
    | .error e => .error (("failed to render path: ") ++ e)
    | .ok path =>
      let url := trimRightSlash baseURL ++ "/" ++ trimLeftSlash path
      match opDef.QueryParams with
      | [] => .ok (.static (.str url))
      | qps =>
        match qps.mapM (fun kv =>
          (renderGo kv.2 staticContext).map (fun v => kv.1 ++ "=" ++ v)) with
        | .error e => .error (("failed to render query param: ") ++ e)
        | .ok queryParts =>
          .ok (.static (.str (url ++ "?" ++
            String.intercalate ("&") queryParts)))

/-- `buildURLSpec` (src/builder/builder.go lines 125-200): with no
dynamic context values the URL is rendered statically; otherwise base URL
and path are converted to a JavaScript expression, and when the converted
path starts with a quote it is concatenated after the base URL's own
string literal (dynamic query parameters are not supported and are
ignored, as in the source). -/
def buildURLSpec (renderGo : String → List (String × GoVal) → Except String String)
    (serviceDefaults : ServiceDefaultsM) (opDef : OperationDefM)
    (context : List (String × ValueSpec)) : Except String ValueSpec :=
  if !HasDynamicValuesL context then
    buildURLStatic renderGo serviceDefaults opDef (ExtractStaticValuesL context)
  else
    match renderTemplate renderGo serviceDefaults.BaseURL context with
    | .error e => .error (("failed to render base_url: ") ++ e)
    | .ok baseURL =>
      match renderTemplate renderGo opDef.Path context with
      | .error e => .error (("failed to render path: ") ++ e)
      | .ok path =>
        let baseURLStr := trimRightSlash baseURL
        let pathStr := trimLeftSlash path
        let urlExpr :=
          if pathStr.data.head? = some '\'' then
            jsStringLiteral baseURLStr ++ " + " ++ pathStr
          else jsStringLiteral (baseURLStr ++ "/" ++ pathStr)
        .ok (.dynamic ("js") (urlExpr) (""))

/-- `stage.dependencyRefs` for `stage := p.stages[id]`: the dependency ids
of stage `id` in the built graph (stage id → dependency ids).  `Validate`
only reaches this lookup for ids the existence pre-check has already
established, so the missing-id default `[]` is never observed there. -/
def depsOf (stages : List (String × List String)) (id : String) :
    List String :=
  (alookup stages id).getD []

/-- The direct dependency relation of the graph: `depRel stages a b`
holds when stage `b` lists `a` among its dependencies — the edge the DFS
of `Validate` walks from a stage to each of its dependencies. -/
def depRel (stages : List (String × List String)) (a b : String) : Prop :=
  a ∈ depsOf stages b

/-- The two marker maps of `Validate`'s DFS — `visited` and `recStack` —
modelled as the lists of ids currently marked `true`. -/
structure DfsState where
  visited : List String
  recStack : List String

mutual

/-- `hasCycle(id)` from `Pipeline.Validate` (src/pipeline.go lines
278-295): mark `id` visited and on the recursion stack, scan its
dependencies, then clear the stack marker on the `false` way out.  The
recursion is bounded by explicit fuel (`none` = fuel exhausted);
`Validate` passes `stages.length + 1`, which `validateRoots_no_exhaust`
proves is never exhausted. -/
def dfsVisit (stages : List (String × List String)) :
    Nat → String → DfsState → Option (Bool × DfsState)
  | 0, _, _ => none
  | Nat.succ fuel, id, st =>
    match dfsDeps stages fuel (depsOf stages id)
        ⟨id :: st.visited, id :: st.recStack⟩ with
    | none => none
    | some (true, st2) => some (true, st2)
    | some (false, st2) => some (false, ⟨st2.visited, st2.recStack.erase id⟩)
termination_by fuel _ _ => (fuel, 0)
decreasing_by
  all_goals simp_wf
  all_goals exact Prod.Lex.left _ _ (Nat.lt_succ_self _)

/-- The `for _, dep := range stage.dependencyRefs` loop of `hasCycle`: an
unvisited dependency is visited recursively (propagating `true`), a
visited dependency still on the recursion stack is a back edge
(`return true`), any other visited dependency is skipped. -/
def dfsDeps (stages : List (String × List String)) :
    Nat → List String → DfsState → Option (Bool × DfsState)
  | _, [], st => some (false, st)
  | fuel, d :: ds, st =>
    if d ∈ st.visited then
      if d ∈ st.recStack then some (true, st)
      else dfsDeps stages fuel ds st
    else
      match dfsVisit stages fuel d st with
      | none => none
      | some (true, st2) => some (true, st2)
      | some (false, st2) => dfsDeps stages fuel ds st2
termination_by fuel ds _ => (fuel, ds.length + 1)
decreasing_by
  all_goals simp_wf
  all_goals first
    | exact Prod.Lex.right _ (by omega)
    | exact Prod.Lex.left _ _ (by omega)

end

/-- The `for id := range p.stages` root loop of `Validate`
(src/pipeline.go lines 297-303): run the DFS from every still-unvisited
stage id.  `some true` = cycle found, `some false` = all roots clean,
`none` = fuel exhausted. -/
def validateRoots (stages : List (String × List String)) (fuel : Nat) :
    List String → DfsState → Option Bool
  | [], _ => some false
  | id :: rest, st =>
    if id ∈ st.visited then validateRoots stages fuel rest st
    else
      match dfsVisit stages fuel id st with
      | none => none
      | some (true, _) => some true
      | some (false, st2) => validateRoots stages fuel rest st2

/-- The dependency-existence pre-check of `Validate` (src/pipeline.go
lines 265-271): the first `(id, dep)` whose `dep` is missing from the
stage map, if any. -/
def findMissingDep (stages : List (String × List String)) :
    List (String × List String) → Option (String × String)
  | [] => none
  | (id, deps) :: rest =>
    match deps.find? (fun d => (alookup stages d).isNone) with
    | some d => some (id, d)
    | none => findMissingDep stages rest

/-- `Pipeline.Validate` (src/pipeline.go lines 260-306): reject a
dependency on a non-existent stage, then reject a cyclic graph through
the DFS.  `validateRoots_no_exhaust` shows the fuel `stages.length + 1`
never runs out, so the `none` branch is dead; it is mapped to the same
cycle error. -/
def Validate (stages : List (String × List String)) : Except String Unit :=
  match findMissingDep stages stages with
  | some (id, dep) =>
    .error (("stage '") ++ id ++ ("' depends on non-existent stage '") ++
      dep ++ ("'"))
  | none =>
    match validateRoots stages (stages.length + 1) (stages.map Prod.fst)
        ⟨[], []⟩ with
    | some false => .ok ()
    | _ => .error ("circular dependency detected in pipeline")

/-- `Pipeline.Start` (src/pipeline.go lines 119-165): fail when already
running, otherwise validate and only then launch the execution goroutine.
`Pipeline.execute` spawns one worker goroutine per stage, so a successful
start is modelled by the list of spawned stage worker ids; an `.error`
result spawns none. -/
def Start (stages : List (String × List String)) (running : Bool) :
    Except String (List String) :=
  if running then .error ("pipeline already running")
  else
    match Validate stages with
    | .error e => .error (("pipeline validation failed: ") ++ e)
    | .ok _ => .ok (stages.map Prod.fst)

/-- The DFS invariant: every id marked visited but no longer on the
recursion stack has been fully explored (it is `Acc` for the dependency
relation), and the recursion stack only holds visited ids. -/
def DfsInv (stages : List (String × List String)) (st : DfsState) : Prop :=
  (∀ v, v ∈ st.visited → v ∉ st.recStack → Acc (depRel stages) v) ∧
  (∀ v, v ∈ st.recStack → v ∈ st.visited)

/-- Postcondition of a `false` run of `dfsVisit` at a given fuel. -/
def VisitPost (stages : List (String × List String)) (fuel : Nat) : Prop :=
  ∀ id st st', dfsVisit stages fuel id st = some (false, st') →
    DfsInv stages st →
    DfsInv stages st' ∧ st'.recStack = st.recStack ∧
      (∀ v, v ∈ st.visited → v ∈ st'.visited) ∧ id ∈ st'.visited ∧
      Acc (depRel stages) id

/-- Postcondition of a `false` run of `dfsDeps` at a given fuel. -/
def DepsPost (stages : List (String × List String)) (fuel : Nat) : Prop :=
  ∀ ds st st', dfsDeps stages fuel ds st = some (false, st') →
    DfsInv stages st →
    DfsInv stages st' ∧ st'.recStack = st.recStack ∧
      (∀ v, v ∈ st.visited → v ∈ st'.visited) ∧
      ∀ d, d ∈ ds → Acc (depRel stages) d

/-- Ids of the stage map that are not yet marked visited; the strictly
decreasing measure showing the DFS fuel is never exhausted. -/
def unvisitedCount (stages : List (String × List String))
    (st : DfsState) : Nat :=
  ((stages.map Prod.fst).filter (fun id => decide (id ∉ st.visited))).length

/-- `dfsVisit` only ever grows the visited set. -/
def VisitMono (stages : List (String × List String)) (fuel : Nat) : Prop :=
  ∀ id st b st', dfsVisit stages fuel id st = some (b, st') →
    ∀ v, v ∈ st.visited → v ∈ st'.visited

/-- `dfsDeps` only ever grows the visited set. -/
def DepsMono (stages : List (String × List String)) (fuel : Nat) : Prop :=
  ∀ ds st b st', dfsDeps stages fuel ds st = some (b, st') →
    ∀ v, v ∈ st.visited → v ∈ st'.visited

/-- `dfsVisit` does not exhaust fuel exceeding the unvisited count. -/
def VisitNX (stages : List (String × List String)) (fuel : Nat) : Prop :=
  ∀ id st, unvisitedCount stages st < fuel → id ∉ st.visited →
    dfsVisit stages fuel id st ≠ none

/-- `dfsDeps` does not exhaust fuel exceeding the unvisited count. -/
def DepsNX (stages : List (String × List String)) (fuel : Nat) : Prop :=
  ∀ ds st, unvisitedCount stages st < fuel →
    dfsDeps stages fuel ds st ≠ none

theorem lastIndexOfChar_eq_none {c : Char} {l : List Char} (h : c ∉ l) :
    lastIndexOfChar c l = none := by
  induction l with
  | nil => rfl
  | cons x xs ih =>
    simp only [List.mem_cons, not_or] at h
    simp [lastIndexOfChar, ih h.2, Ne.symm h.1]

theorem lastIndexOfChar_append {a b : List Char} (hb : ':' ∉ b) :
    lastIndexOfChar ':' (a ++ ':' :: b) = some a.length := by
  induction a with
  | nil => simp [lastIndexOfChar, lastIndexOfChar_eq_none hb]
  | cons x xs ih => simp [lastIndexOfChar, ih]

theorem parseDependencyCore_split {a b : List Char} (hb : ':' ∉ b)
    (hne : b ≠ []) : parseDependencyCore (a ++ ':' :: b) = (a, b) := by
  have hblen : b.length ≠ 0 := fun h => hne (List.eq_nil_of_length_eq_zero h)
  have hcond : ¬ a.length = (a ++ ':' :: b).length - 1 := by
    simp only [List.length_append, List.length_cons]
    omega
  have hdrop : (a ++ ':' :: b).drop (a.length + 1) = b := by
    have h2 : (a ++ ':' :: b).drop (a.length + 1) =
        ((a ++ ':' :: b).drop a.length).drop 1 := by
      rw [List.drop_drop]
    rw [h2, List.drop_left a (':' :: b)]
    rfl
  simp only [parseDependencyCore, lastIndexOfChar_append hb, if_neg hcond,
    List.take_left, hdrop]

theorem parseDependencyCore_no_colon {cs : List Char} (h : ':' ∉ cs) :
    parseDependencyCore cs = (cs, []) := by
  simp [parseDependencyCore, lastIndexOfChar_eq_none h]

/-- C4: `ParseDependency` splits at the last colon: for every id part `a`
and colon-free non-empty branch part `b`, parsing `a ++ ":" ++ b` yields
`(a, b)`; a string without a colon yields itself with an empty branch; and
the trailing colon is not stripped, as the three concrete examples
`stage:with:colons:branch`, `stage`, `stage:` show. -/
theorem C4_parseDependency_splits_at_last_colon :
    (∀ a b : List Char, ':' ∉ b → b ≠ [] →
      ParseDependency (String.mk (a ++ ':' :: b)) =
        ⟨String.mk a, String.mk b⟩) ∧
    (∀ s : String, ':' ∉ s.data → ParseDependency s = ⟨s, ""⟩) ∧
    ParseDependency ("stage:with:colons:branch") =
      ⟨"stage:with:colons", "branch"⟩ ∧
    ParseDependency ("stage") = ⟨"stage", ""⟩ ∧
    ParseDependency ("stage:") = ⟨"stage:", ""⟩ := by
  refine ⟨?_, ?_, by decide, by decide, by decide⟩
  · intro a b hb hne
    show DependencyRef.mk (String.mk (parseDependencyCore (a ++ ':' :: b)).1)
        (String.mk (parseDependencyCore (a ++ ':' :: b)).2) = _
    rw [parseDependencyCore_split hb hne]
  · intro s hs
    show DependencyRef.mk (String.mk (parseDependencyCore s.data).1)
        (String.mk (parseDependencyCore s.data).2) = _
    rw [parseDependencyCore_no_colon hs]

/-- Witness for C4: instantiating the general split statement at concrete
id and branch parts. -/
theorem C4_witness :
    ParseDependency (String.mk (['a', 'b'] ++ ':' :: ['t', 'r'])) =
      ⟨String.mk ['a', 'b'], String.mk ['t', 'r']⟩ :=
  C4_parseDependency_splits_at_last_colon.1 ['a', 'b'] ['t', 'r']
    (by decide) (by decide)

/-! ## The two-tier value model (src/config/value.go) -/

/-- C10: `ParseConfigValue` is idempotent (a value that is already a
`ValueSpec` is returned unchanged, so applying the function to its own
result changes nothing), the four `$js:`/`$var:`/`$secret:`/`$env:`
prefixes map to `DynamicValue`, `VariableReference`, `SecretReference`
and `EnvReference` with the remainder trimmed of whitespace, and every
other value maps to a `StaticValue` holding it. -/
theorem C10_parseConfigValue_idempotent_and_prefixes :
    (∀ v : ConfigAny,
      ParseConfigValue (.vs (ParseConfigValue v)) = ParseConfigValue v) ∧
    (∀ e : String, ParseConfigValue (.val (.str ("$js:" ++ e))) =
      .dynamic ("js") (trimSpace e) ("")) ∧
    (∀ e : String, ParseConfigValue (.val (.str ("$var:" ++ e))) =
      .varRef (trimSpace e)) ∧
    (∀ e : String, ParseConfigValue (.val (.str ("$secret:" ++ e))) =
      .secretRef (trimSpace e)) ∧
    (∀ e : String, ParseConfigValue (.val (.str ("$env:" ++ e))) =
      .envRef (trimSpace e)) ∧
    (∀ s : String,
      ¬ goHasPrefix s ("$js:") = true →
      ¬ goHasPrefix s ("$var:") = true →
      ¬ goHasPrefix s ("$secret:") = true →
      ¬ goHasPrefix s ("$env:") = true →
      ParseConfigValue (.val (.str s)) = .static (.str s)) ∧
    (∀ g : GoVal, (∀ s, g ≠ .str s) →
      ParseConfigValue (.val g) = .static g) := by
  refine ⟨fun v => rfl, fun e => rfl, fun e => rfl, fun e => rfl, fun e => rfl,
    ?_, ?_⟩
  · intro s h1 h2 h3 h4
    simp [ParseConfigValue, h1, h2, h3, h4]
  · intro g hg
    cases g with
    | str s => exact absurd rfl (hg s)
    | null => rfl
    | int n => rfl
    | bool b => rfl
    | arr items => rfl
    | map fields => rfl

/-- Witness for C10: the `$js:` prefix clause and the no-prefix clause at
concrete strings. -/
theorem C10_witness :
    ParseConfigValue (.val (.str ("$js:" ++ " ctx.a "))) =
      .dynamic ("js") (trimSpace (" ctx.a ")) ("") ∧
    ParseConfigValue (.val (.str ("hello"))) = .static (.str ("hello")) :=
  ⟨C10_parseConfigValue_idempotent_and_prefixes.2.1 (" ctx.a "),
   C10_parseConfigValue_idempotent_and_prefixes.2.2.2.2.2.1 ("hello")
     (by decide) (by decide) (by decide) (by decide)⟩

/-! ## Parameter definitions and parameter merging
(src/unnamed/part_001 `config.ParameterDef`, src/unnamed/part_005
`builder.BodyResolver.mergeParams`). -/

theorem foldPut_not_mem {α : Type} (f : α → Option ValueSpec)
    (entries : List (String × α)) (base : String → Option ValueSpec)
    {name : String} (h : name ∉ entries.map Prod.fst) :
    foldPut f entries base name = base name := by
  induction entries generalizing base with
  | nil => rfl
  | cons e rest ih =>
    simp only [List.map_cons, List.mem_cons, not_or] at h
    show foldPut f rest _ name = base name
    rw [ih _ h.2]
    cases hf : f e.2 with
    | none => simp only [hf]
    | some v => simp only [hf, mapUpsert, if_neg h.1]

theorem foldPut_lookup {α : Type} (f : α → Option ValueSpec)
    (entries : List (String × α)) (base : String → Option ValueSpec)
    (name : String) (hnd : (entries.map Prod.fst).Nodup) :
    foldPut f entries base name =
      match alookup entries name with
      | some a =>
        match f a with
        | some v => some v
        | none => base name
      | none => base name := by
  induction entries generalizing base with
  | nil => rfl
  | cons e rest ih =>
    obtain ⟨k, a⟩ := e
    simp only [List.map_cons, List.nodup_cons] at hnd
    show foldPut f rest _ name = _
    by_cases hk : name = k
    · subst hk
      rw [foldPut_not_mem f rest _ hnd.1]
      cases hf : f a with
      | none => simp [alookup, hf]
      | some v => simp [alookup, hf, mapUpsert]
    · rw [ih _ hnd.2]
      simp only [alookup, if_neg hk]
      cases halk : alookup rest name with
      | none =>
        cases hf : f a with
        | none => simp [hf]
        | some v => simp [hf, mapUpsert, hk]
      | some a2 =>
        cases hf2 : f a2 with
        | none =>
          simp only [hf2]
          cases hf : f a with
          | none => simp [hf]
          | some v => simp [hf, mapUpsert, hk]
        | some v2 => simp [hf2]

theorem foldPut_default_lookup (entries : List (String × ParameterDef))
    (base : String → Option ValueSpec) (name : String)
    (hnd : (entries.map Prod.fst).Nodup) :
    foldPut defaultStatic entries base name =
      match (alookup entries name).bind (fun pd => pd.Default) with
      | some d => some (NewStaticValue d)
      | none => base name := by
  rw [foldPut_lookup _ entries base name hnd]
  cases h : alookup entries name with
  | none => simp
  | some pd =>
    cases hd : pd.Default with
    | some d => simp [defaultStatic, hd]
    | none => simp [defaultStatic, hd]

/-- C6: the merged parameter environment used for body resolution gives,
for every name, the user-supplied value if present, else the
operation-level default, else the service-level global default: a user
value overrides an operation default, which overrides a global default
for the same name (keys of each Go map are unique, expressed by the
`Nodup` hypotheses on the modelled entry lists). -/
theorem C6_mergeParams_precedence
    (gp op : List (String × ParameterDef)) (up : List (String × ValueSpec))
    (hg : (gp.map Prod.fst).Nodup) (ho : (op.map Prod.fst).Nodup)
    (hu : (up.map Prod.fst).Nodup) (name : String) :
    mergeParams gp op up name =
      match alookup up name with
      | some v => some v
      | none =>
        match (alookup op name).bind (fun pd => pd.Default) with
        | some d => some (NewStaticValue d)
        | none =>
          match (alookup gp name).bind (fun pd => pd.Default) with
          | some d => some (NewStaticValue d)
          | none => none := by
  unfold mergeParams
  rw [foldPut_lookup _ up _ name hu]
  cases alookup up name with
  | some v => rfl
  | none =>
    simp only
    rw [foldPut_default_lookup op _ name ho]
    cases (alookup op name).bind (fun pd => pd.Default) with
    | some d => rfl
    | none =>
      simp only
      rw [foldPut_default_lookup gp _ name hg]

/-- Witness for C6: all three precedence levels on concrete maps (`a` is
set at every level and the user value wins, `b` only has an operation
default, `c` only has a global default). -/
theorem C6_witness :
    mergeParams
        [("a", ⟨false, true, some (.str ("g")), "", ""⟩),
         ("c", ⟨false, true, some (.str ("gc")), "", ""⟩)]
        [("a", ⟨false, true, some (.str ("o")), "", ""⟩),
         ("b", ⟨false, true, some (.str ("ob")), "", ""⟩)]
        [("a", .static (.str ("u")))] ("a") = some (.static (.str ("u"))) ∧
    mergeParams
        [("a", ⟨false, true, some (.str ("g")), "", ""⟩),
         ("c", ⟨false, true, some (.str ("gc")), "", ""⟩)]
        [("a", ⟨false, true, some (.str ("o")), "", ""⟩),
         ("b", ⟨false, true, some (.str ("ob")), "", ""⟩)]
        [("a", .static (.str ("u")))] ("b") =
      some (NewStaticValue (.str ("ob"))) ∧
    mergeParams
        [("a", ⟨false, true, some (.str ("g")), "", ""⟩),
         ("c", ⟨false, true, some (.str ("gc")), "", ""⟩)]
        [("a", ⟨false, true, some (.str ("o")), "", ""⟩),
         ("b", ⟨false, true, some (.str ("ob")), "", ""⟩)]
        [("a", .static (.str ("u")))] ("c") =
      some (NewStaticValue (.str ("gc"))) := by
  refine ⟨?_, ?_, ?_⟩ <;>
    rw [C6_mergeParams_precedence _ _ _ (by decide) (by decide) (by decide)] <;>
    rfl

theorem alookup_collapse (l : List (String × ValueSpec)) (k : String) :
    alookup (l.map (fun kv => (kv.1, kv.2.GetStaticValue.getD GoVal.null))) k =
      (alookup l k).map (fun v => v.GetStaticValue.getD GoVal.null) := by
  induction l with
  | nil => rfl
  | cons e rest ih =>
    by_cases hk : k = e.1
    · simp [alookup, hk]
    · simp [alookup, hk, ih]

theorem resolveFields_not_mem (ext : Extern)
    (opParams : List (String × ParameterDef)) (fields : List (String × GoVal))
    (params : String → Option ValueSpec) {k : String} {rf : List (String × ValueSpec)}
    (hk : k ∉ fields.map Prod.fst)
    (h : resolveFields ext opParams fields params = .ok rf) :
    alookup rf k = none := by
  induction fields generalizing rf with
  | nil =>
    rw [resolveFields] at h
    cases h
    rfl
  | cons e rest ih =>
    obtain ⟨key, value⟩ := e
    simp only [List.map_cons, List.mem_cons, not_or] at hk
    rw [resolveFields] at h
    cases hfv : resolveBodyField ext opParams value params with
    | error e => rw [hfv] at h; cases h
    | ok o =>
      rw [hfv] at h
      cases o with
      | none => exact ih hk.2 h
      | some r =>
        cases hrest : resolveFields ext opParams rest params with
        | error e => rw [hrest] at h; cases h
        | ok rf2 =>
          rw [hrest] at h
          cases h
          simp only [alookup, if_neg hk.1]
          exact ih hk.2 hrest

theorem resolveFields_drops_omitted (ext : Extern)
    (opParams : List (String × ParameterDef)) (fields : List (String × GoVal))
    (params : String → Option ValueSpec) {k : String} {v : GoVal}
    {rf : List (String × ValueSpec)}
    (hnd : (fields.map Prod.fst).Nodup)
    (hkv : alookup fields k = some v)
    (hom : resolveBodyField ext opParams v params = .ok none)
    (h : resolveFields ext opParams fields params = .ok rf) :
    alookup rf k = none := by
  induction fields generalizing rf with
  | nil => simp [alookup] at hkv
  | cons e rest ih =>
    obtain ⟨key, value⟩ := e
    simp only [List.map_cons, List.nodup_cons] at hnd
    simp only [alookup] at hkv
    rw [resolveFields] at h
    by_cases hk : k = key
    · rw [if_pos hk] at hkv
      cases hkv
      subst hk
      rw [hom] at h
      exact resolveFields_not_mem ext opParams rest params hnd.1 h
    · rw [if_neg hk] at hkv
      cases hfv : resolveBodyField ext opParams value params with
      | error e => rw [hfv] at h; cases h
      | ok o =>
        rw [hfv] at h
        cases o with
        | none => exact ih hnd.2 hkv h
        | some r =>
          cases hrest : resolveFields ext opParams rest params with
          | error e => rw [hrest] at h; cases h
          | ok rf2 =>
            rw [hrest] at h
            cases h
            simp only [alookup, if_neg hk]
            exact ih hnd.2 hkv hrest

theorem resolveBodyMap_plain (ext : Extern)
    (opParams : List (String × ParameterDef)) (m : List (String × GoVal))
    (params : String → Option ValueSpec)
    (hif : alookup m ("$if") = none) (hfe : alookup m ("$for_each") = none)
    (hpar : ∀ s, alookup m ("$param") ≠ some (.str s)) :
    resolveBodyMap ext opParams m params =
      match resolveFields ext opParams m params with
      | .error e => .error e
      | .ok rf =>
        if rf.all (fun kv => kv.2.IsStatic) then
          .ok (some (NewStaticValue (.map (rf.map
            (fun kv => (kv.1, kv.2.GetStaticValue.getD .null))))))
        else .ok (some (.structFields rf)) := by
  rw [resolveBodyMap, hif, hfe]
  simp only [Option.isSome_none, Bool.false_eq_true, if_false]

/-- C7: omission rule.  (i) A `$param` node whose parameter is absent from
the merged environment and declared optional in the operation resolves to
*omitted*; (ii) a plain enclosing map (unique keys, no reserved key at its
top level) whose field resolves to omitted produces a resolved map, static
or structured, with no binding for that field (no null placeholder);
(iii) an enclosing array drops an omitted item entirely; (iv) if the
absent parameter is not declared optional, resolution fails with an error
naming the parameter. -/
theorem C7_omission_rule (ext : Extern)
    (opParams : List (String × ParameterDef))
    (params : String → Option ValueSpec) (name : String) :
    (∀ pd, params name = none → alookup opParams name = some pd →
      pd.IsOptional = true →
      resolveBodyMap ext opParams [(("$param"), .str name)] params = .ok none) ∧
    (∀ fields k v spec, (fields.map Prod.fst).Nodup →
      alookup fields ("$if") = none →
      alookup fields ("$for_each") = none →
      (∀ s, alookup fields ("$param") ≠ some (.str s)) →
      alookup fields k = some v →
      resolveBodyField ext opParams v params = .ok none →
      resolveBodyMap ext opParams fields params = .ok (some spec) →
      resolvedMapHasKey spec k = false) ∧
    (∀ v rest, resolveBodyField ext opParams v params = .ok none →
      resolveItems ext opParams (v :: rest) params =
        resolveItems ext opParams rest params) ∧
    (params name = none →
      (match alookup opParams name with
       | some pd => pd.IsOptional = false
       | none => True) →
      resolveBodyMap ext opParams [(("$param"), .str name)] params =
        .error (("parameter '") ++ name ++ ("' not found"))) := by
  refine ⟨?_, ?_, ?_, ?_⟩
  · intro pd hnone hop hopt
    rw [resolveBodyMap]
    simp [alookup, hnone, hop, hopt]
  · intro fields k v spec hnd hif hfe hpar hkv hom h
    rw [resolveBodyMap_plain ext opParams fields params hif hfe hpar] at h
    split at h
    · exact (Except.noConfusion h)
    · rename_i rf hrf
      have hdrop := resolveFields_drops_omitted ext opParams fields params
        hnd hkv hom hrf
      split at h
      · cases h
        simp [resolvedMapHasKey, NewStaticValue, alookup_collapse, hdrop]
      · cases h
        simp [resolvedMapHasKey, hdrop]
  · intro v rest hom
    rw [resolveItems, hom]
  · intro hnone hreq
    rw [resolveBodyMap]
    cases hop : alookup opParams name with
    | none => simp [alookup, hnone, hop]
    | some pd =>
      rw [hop] at hreq
      simp [alookup, hnone, hop, hreq]

/-- Witness for C7: a concrete body `{x: {$param: opt}, y: "s"}` with an
optional, absent parameter `opt` resolves to a static map binding only
`y`; the `$param` node alone resolves to omitted; an omitted array item is
dropped; a required absent parameter fails naming it. -/
theorem C7_witness :
    resolveBodyMap ⟨fun _ _ => .error (""), fun _ => ""⟩
        [("opt", ⟨false, true, none, "", ""⟩)]
        [(("$param"), .str ("opt"))] (fun _ => none) = .ok none ∧
    resolvedMapHasKey
        (NewStaticValue (.map [("y", .str ("s"))])) ("x") = false ∧
    resolveBodyMap ⟨fun _ _ => .error (""), fun _ => ""⟩
        [("opt", ⟨false, true, none, "", ""⟩)]
        [("x", .map [(("$param"), .str ("opt"))]), ("y", .str ("s"))]
        (fun _ => none) =
      .ok (some (NewStaticValue (.map [("y", .str ("s"))]))) ∧
    resolveBodyMap ⟨fun _ _ => .error (""), fun _ => ""⟩
        [("req", ⟨true, false, none, "", ""⟩)]
        [(("$param"), .str ("req"))] (fun _ => none) =
      .error (("parameter '") ++ ("req") ++ ("' not found")) := by
  have homit : resolveBodyMap ⟨fun _ _ => .error (""), fun _ => ""⟩
      [("opt", ⟨false, true, none, "", ""⟩)]
      [(("$param"), .str ("opt"))] (fun _ => none) = .ok none :=
    (C7_omission_rule ⟨fun _ _ => .error (""), fun _ => ""⟩
      [("opt", ⟨false, true, none, "", ""⟩)] (fun _ => none) ("opt")).1
      ⟨false, true, none, "", ""⟩ rfl rfl rfl
  have hmap : resolveBodyMap ⟨fun _ _ => .error (""), fun _ => ""⟩
      [("opt", ⟨false, true, none, "", ""⟩)]
      [("x", .map [(("$param"), .str ("opt"))]), ("y", .str ("s"))]
      (fun _ => none) =
      .ok (some (NewStaticValue (.map [("y", .str ("s"))]))) := by
    rw [resolveBodyMap_plain ⟨fun _ _ => .error (""), fun _ => ""⟩
      [("opt", ⟨false, true, none, "", ""⟩)]
      [("x", .map [(("$param"), .str ("opt"))]), ("y", .str ("s"))]
      (fun _ => none) (by simp [alookup]) (by simp [alookup])
      (fun s h => by simp [alookup] at h)]
    simp [resolveFields, resolveBodyField, homit, alookup, NewStaticValue,
      ValueSpec.IsStatic, ValueSpec.GetStaticValue]
  refine ⟨homit, ?_, hmap, ?_⟩
  · exact (C7_omission_rule ⟨fun _ _ => .error (""), fun _ => ""⟩
      [("opt", ⟨false, true, none, "", ""⟩)] (fun _ => none) ("opt")).2.1
      [("x", .map [(("$param"), .str ("opt"))]), ("y", .str ("s"))]
      ("x") (.map [(("$param"), .str ("opt"))])
      (NewStaticValue (.map [("y", .str ("s"))]))
      (by decide) rfl rfl (fun s h => by exact nomatch h) rfl
      (by rw [resolveBodyField]; exact homit) hmap
  · exact (C7_omission_rule ⟨fun _ _ => .error (""), fun _ => ""⟩
      [("req", ⟨true, false, none, "", ""⟩)] (fun _ => none) ("req")).2.2.2
      rfl (by simp [alookup, ParameterDef.IsOptional])

/-- C9: at body-resolution time, a `$if` condition map that carries
`$param` (as a string) but none of the five operator keys `$exists`,
`$equals`, `$not_equals`, `$not_empty`, `$is_empty` is not rejected by
`evaluateCondition`: it evaluates to whether the parameter's resolved
value is non-empty, and to false when the parameter is absent from the
environment; nil, the empty string, an empty array and an empty map count
as empty, while numeric zero and boolean false count as non-empty. -/
theorem C9_implicit_condition_fallback (ext : Extern)
    (cond : List (String × GoVal)) (params : String → Option ValueSpec)
    (name : String)
    (hp : alookup cond ("$param") = some (.str name))
    (hex : alookup cond ("$exists") = none)
    (heq : alookup cond ("$equals") = none)
    (hneq : alookup cond ("$not_equals") = none)
    (hne : alookup cond ("$not_empty") = none)
    (hie : alookup cond ("$is_empty") = none) :
    (params name = none → evaluateCondition ext cond params = .ok false) ∧
    (∀ spec v, params name = some spec → resolveEmpty ext spec = .ok v →
      evaluateCondition ext cond params = .ok (valueExists v)) ∧
    valueExists .null = false ∧ valueExists (.str ("")) = false ∧
    valueExists (.arr []) = false ∧ valueExists (.map []) = false ∧
    valueExists (.int 0) = true ∧ valueExists (.bool false) = true := by
  refine ⟨?_, ?_, by decide, by decide, by decide, by decide, by decide,
    by decide⟩
  · intro h
    simp only [evaluateCondition, hp, hex, h]
  · intro spec v hs hr
    simp only [evaluateCondition, hp, hex, hs, hr, heq, hne, hie]

/-- Witness for C9: a condition `{$param: p}` with no operator evaluates
to true for `p = 0` (numeric zero is non-empty) and to false when `p` is
absent. -/
theorem C9_witness :
    evaluateCondition ⟨fun _ _ => .error (""), fun _ => ""⟩
        [(("$param"), .str ("p"))]
        (fun x => if x = "p" then some (NewStaticValue (.int 0)) else none) =
      .ok true ∧
    evaluateCondition ⟨fun _ _ => .error (""), fun _ => ""⟩
        [(("$param"), .str ("p"))] (fun _ => none) = .ok false := by
  constructor
  · have h := (C9_implicit_condition_fallback
      ⟨fun _ _ => .error (""), fun _ => ""⟩ [(("$param"), .str ("p"))]
      (fun x => if x = "p" then some (NewStaticValue (.int 0)) else none)
      ("p") rfl rfl rfl rfl rfl rfl).2.1 (NewStaticValue (.int 0)) (.int 0)
      (by rfl) (by rfl)
    exact h
  · exact (C9_implicit_condition_fallback
      ⟨fun _ _ => .error (""), fun _ => ""⟩ [(("$param"), .str ("p"))]
      (fun _ => none) ("p") rfl rfl rfl rfl rfl rfl).1 rfl

/-! ## Dataflow runtime: per-event step loop and round-based fan-in
(src/pipeline.go `createInputChannelV2`, src/steps/cron.go `JsStep.Run`,
src/unnamed/part_009 `HTTPClientStep.Run`). -/

theorem fanInLoop_single_edge (dep : String) (outs : List StepOutput)
    (fuel : Nat) (hf : outs.length < fuel) :
    fanInLoop fuel [(dep, outs)] =
      outs.map (fun o => ⟨[(dep, o.Data)], o.EventID⟩) := by
  induction outs generalizing fuel with
  | nil =>
    cases fuel with
    | zero => omega
    | succ k => rfl
  | cons o os ih =>
    cases fuel with
    | zero => omega
    | succ k =>
      simp only [List.length_cons] at hf
      show (let (st, rest) := readRound [(dep, o :: os)] ⟨[], "", true⟩
        if st.allClosed then []
        else
          (if 0 < st.data.length then [(⟨st.data, st.eventID⟩ : StepInput)]
           else []) ++ fanInLoop k rest) = _
      rw [show readRound [(dep, o :: os)] ⟨[], "", true⟩ =
        (⟨[(dep, o.Data)], o.EventID, false⟩, [(dep, os)]) from rfl]
      simp only [List.length_cons, List.map_cons]
      rw [ih k (by omega)]
      rfl

/-- The round event id (src/pipeline.go lines 443-445): the accumulator
adopts the first non-empty `EventID` received during the round, in
dependency order (an already non-empty accumulator is preserved). -/
theorem readRound_eventID (edges : List (String × List StepOutput))
    (d0 : List (String × List (String × GoVal))) (e0 : String) (c0 : Bool) :
    (readRound edges ⟨d0, e0, c0⟩).1.eventID =
      if e0 = "" then
        (((edges.filterMap (fun e => e.2.head?)).map
          (fun o => o.EventID)).find? (fun id => id != "")).getD ""
      else e0 := by
  induction edges generalizing d0 e0 c0 with
  | nil =>
    by_cases h : e0 = "" <;> simp [readRound, h]
  | cons e rest ih =>
    obtain ⟨dep, outs⟩ := e
    cases outs with
    | nil =>
      show (readRound rest ⟨d0, e0, c0⟩).1.eventID = _
      rw [ih]
      simp
    | cons o os =>
      by_cases h0 : e0 = ""
      · subst h0
        show (readRound rest
          ⟨d0 ++ [(dep, o.Data)], o.EventID, false⟩).1.eventID = _
        rw [ih]
        simp only [if_pos rfl, List.filterMap_cons, List.head?_cons,
          List.map_cons, List.find?_cons]
        by_cases ho : o.EventID = ""
        · have hbne : (o.EventID != "") = false := by simp [ho]
          rw [hbne]
          simp [ho]
        · have hbne : (o.EventID != "") = true := by simp [ho]
          rw [hbne]
          simp [ho]
      · show (readRound rest
          ⟨d0 ++ [(dep, o.Data)],
           if e0 = "" then o.EventID else e0, false⟩).1.eventID = _
        rw [ih]
        simp [h0]

/-- C3: EventID propagation.  (i) A non-trigger step copies the input's
`EventID` to the output it emits for that input; more generally the
per-stage output event ids form a sublist of the input event ids.
(ii) Fan-in over a single dependency edge delivers one `StepInput` per
received output, preserving each `EventID`.  (iii) For a chain
`A → B → C` of non-trigger stages, every output that C produces carries
the `EventID` of the corresponding input event delivered to A (the event
ids at C are a sublist of those injected at A).  (iv) A fan-in round
adopts the first non-empty `EventID` received in the round. -/
theorem C3_eventID_propagation :
    (∀ f (i : StepInput) d rest, f i = .ok d →
      (runStepLoop f (i :: rest)).1.head? =
        some ⟨d, i.EventID⟩) ∧
    (∀ f inputs, ((runStepLoop f inputs).1.map (fun o => o.EventID)).Sublist
      (inputs.map (fun i => i.EventID))) ∧
    (∀ dep outs, createInputChannel [(dep, outs)] =
      outs.map (fun o => ⟨[(dep, o.Data)], o.EventID⟩)) ∧
    (∀ fA fB fC (inputsA : List StepInput),
      ((chainABC fA fB fC inputsA).map (fun o => o.EventID)).Sublist
        (inputsA.map (fun i => i.EventID))) ∧
    (∀ edges, (readRound edges ⟨[], "", true⟩).1.eventID =
      (((edges.filterMap (fun e => e.2.head?)).map
        (fun o => o.EventID)).find? (fun id => id != "")).getD "") := by
  have hstep : ∀ f inputs,
      ((runStepLoop f inputs).1.map (fun o => o.EventID)).Sublist
        (inputs.map (fun i => i.EventID)) := by
    intro f inputs
    induction inputs with
    | nil => simp [runStepLoop]
    | cons i rest ih =>
      rw [runStepLoop]
      cases f i with
      | error e => simp
      | ok d => simpa using ih.cons₂ i.EventID
  have hfan : ∀ dep outs, createInputChannel [(dep, outs)] =
      outs.map (fun o => ⟨[(dep, o.Data)], o.EventID⟩) := by
    intro dep outs
    apply fanInLoop_single_edge
    simp [totalPending]
  have hfanIds : ∀ dep outs,
      (createInputChannel [(dep, outs)]).map (fun i => i.EventID) =
        outs.map (fun o => o.EventID) := by
    intro dep outs
    rw [hfan]
    simp
  refine ⟨?_, hstep, hfan, ?_, ?_⟩
  · intro f i d rest hok
    rw [runStepLoop, hok]
    rfl
  · intro fA fB fC inputsA
    have h1 := hstep fA inputsA
    have h2 := hstep fB (createInputChannel [(("A"), (runStepLoop fA inputsA).1)])
    have h3 := hstep fC (createInputChannel [(("B"),
      runStage fB ("A") ((runStepLoop fA inputsA).1))])
    rw [hfanIds] at h2 h3
    simp only [chainABC, runStage]
    simp only [runStage] at h3
    exact h3.trans (h2.trans h1)
  · intro edges
    rw [readRound_eventID]
    simp

/-- Witness for C3: the copy clause applied to a concrete step and
input. -/
theorem C3_witness :
    (runStepLoop (fun _ => .ok [("default", GoVal.int 7)])
      [⟨[], "evt_1"⟩]).1.head? =
      some ⟨[("default", GoVal.int 7)], "evt_1"⟩ :=
  C3_eventID_propagation.1 (fun _ => .ok [("default", GoVal.int 7)])
    ⟨[], "evt_1"⟩ [("default", GoVal.int 7)] [] rfl

/-! ## C5: per-event errors end the step loop -/

/-- C5 counterexample: a step that fails on the first event (as
`HTTPClientStep.Run` does on a non-2xx response) emits exactly one error
and produces no output for the following event, even though that event
would succeed on its own — the stage does not continue processing
subsequent input events, contradicting the claim. -/
theorem C5_counterexample :
    (runStepLoop
      (fun i => if i.EventID = "e1" then
          .error ("HTTP request failed with status 500: boom")
        else .ok [("default", GoVal.null)])
      [⟨[], "e1"⟩, ⟨[], "e2"⟩]) =
      ([], ["HTTP request failed with status 500: boom"]) ∧
    (runStepLoop
      (fun i => if i.EventID = "e1" then
          .error ("HTTP request failed with status 500: boom")
        else .ok [("default", GoVal.null)])
      [⟨[], "e2"⟩]).1 = [⟨[("default", GoVal.null)], "e2"⟩] := by
  constructor <;> rfl

/-- C5 (amended): when a step encounters a per-event error it emits
exactly one error on its error stream and its `Run` loop terminates,
processing no further input events (while a successful event lets the
loop continue); the scheduler surfaces each error received on the error
channel as a `stage.error` event and the pipeline continues (the
forwarding loop never aborts). -/
theorem C5_error_ends_step_loop :
    (∀ f (i : StepInput) rest e, f i = .error e →
      runStepLoop f (i :: rest) = ([], [e])) ∧
    (∀ f (i : StepInput) rest d, f i = .ok d →
      runStepLoop f (i :: rest) =
        (⟨d, i.EventID⟩ :: (runStepLoop f rest).1,
         (runStepLoop f rest).2)) ∧
    (∀ stageID stepID errs,
      (forwardErrors stageID stepID errs).length = errs.length ∧
      ∀ e ∈ errs, PipelineEvent.stageError stageID stepID e ∈
        forwardErrors stageID stepID errs) := by
  refine ⟨?_, ?_, ?_⟩
  · intro f i rest e he
    rw [runStepLoop, he]
  · intro f i rest d hd
    rw [runStepLoop, hd]
  · intro stageID stepID errs
    constructor
    · simp [forwardErrors]
    · intro e he
      simp only [forwardErrors, List.mem_map]
      exact ⟨e, he, rfl⟩

/-- Witness for C5 (amended): the error clause at a concrete failing
step. -/
theorem C5_witness :
    runStepLoop (fun _ => .error ("boom")) [(⟨[], "e1"⟩ : StepInput),
      ⟨[], "e2"⟩] = ([], ["boom"]) :=
  C5_error_ends_step_loop.1 (fun _ => .error ("boom")) ⟨[], "e1"⟩
    [⟨[], "e2"⟩] ("boom") rfl

/-! ## Pipeline construction from configuration
(src/pipeline_builder.go `BuildFromConfig`) and the fan-out of
`Pipeline.execute` (src/pipeline.go lines 358-376). -/

/-- C1 (code evaluated at the failing input): the conditional-routing
configuration from the specification — `premium_flow` subscribing to
`chk:true` — is rejected by `BuildFromConfig`, which looks the dependency
string up verbatim as a stage id (`ParseDependency` is never invoked by
the builder or the scheduler); and the fan-out of `Pipeline.execute`
forwards an output whose `NamedOutputs` is `{true: …}` unchanged to a
consumer that depends on the producer, applying no branch filter. -/
theorem C1_branch_dependency_rejected :
    BuildFromConfig (fun _ => true)
      [⟨"user", "webhook", [], []⟩,
       ⟨"chk", "if", ["user"], []⟩,
       ⟨"premium_flow", "js", ["chk:true"], []⟩] =
      .error ("stage 'premium_flow' depends on non-existent stage 'chk:true'") ∧
    fanOutDeliver [("chk", ["user"]), ("down", ["chk"])] ("chk")
        ⟨[("true", .bool true)], "e1"⟩ =
      [("down", ⟨[("true", .bool true)], "e1"⟩)] := by
  constructor <;> rfl

/-! ## URL compilation (src/builder/builder.go `buildURLSpec`,
`convertGoTemplateToJS`, `jsStringLiteral`, `renderTemplate`). -/

theorem goPrefixAux_length {p l : List Char} (h : goPrefixAux p l = true) :
    p.length ≤ l.length := by
  induction p generalizing l with
  | nil => simp
  | cons c cs ih =>
    cases l with
    | nil => simp [goPrefixAux] at h
    | cons d ds =>
      simp only [goPrefixAux, Bool.and_eq_true] at h
      simpa using ih h.2

theorem strIndex_some_aux {s pat : List Char} {i : Nat}
    (h : strIndex s pat = some i) : goPrefixAux pat (s.drop i) = true := by
  induction s generalizing i with
  | nil =>
    rw [strIndex] at h
    by_cases hp : goPrefixAux pat [] = true
    · rw [if_pos hp] at h
      cases h
      exact hp
    · rw [if_neg hp] at h
      cases h
  | cons c t ih =>
    rw [strIndex] at h
    by_cases hp : goPrefixAux pat (c :: t) = true
    · rw [if_pos hp] at h
      cases h
      exact hp
    · rw [if_neg hp] at h
      cases hrec : strIndex t pat with
      | none => rw [hrec] at h; cases h
      | some j =>
        rw [hrec] at h
        cases h
        exact ih hrec

/-- Fuel irrelevance for the placeholder loop: any fuel above the length
of the remaining input gives the same result, so the fuel chosen by
`convertGoTemplateToJS` never matters. -/
theorem convertLoop_fuel (context : List (String × ValueSpec))
    (tmplStr : String) :
    ∀ (f1 f2 : Nat) (remaining : List Char), remaining.length < f1 →
      remaining.length < f2 →
      convertLoop context tmplStr f1 remaining =
        convertLoop context tmplStr f2 remaining := by
  intro f1
  induction f1 with
  | zero => intro f2 r h1 h2; omega
  | succ a ih =>
    intro f2 r h1 h2
    cases f2 with
    | zero => omega
    | succ b =>
      rw [convertLoop, convertLoop]
      split
      · rfl
      · rename_i startIdx hsi
        have hpre := strIndex_some_aux hsi
        have hlen := goPrefixAux_length hpre
        simp only [List.length_drop, List.length_cons, List.length_nil]
          at hlen
        split <;>
          (split
           · rfl
           · rename_i relIdx hsj
             have hrec := ih b (r.drop (startIdx + relIdx + 2))
               (by simp only [List.length_drop]; omega)
               (by simp only [List.length_drop]; omega)
             simp only [hrec])

/-- C8 counterexample: for the service path `/item/{{.item_id}}.json`
with base URL `https://api.example.com` and user parameter
`item_id = "$js: ctx.src.id"`, the compiled URL expression is **not**
the claimed `'<base>/item/' + ctx.src.id + '.json'` — the rendered base
URL is emitted as its own leading string literal. -/
theorem C8_counterexample :
    ¬ (buildURLSpec (fun _ _ => .error ("unused"))
        ⟨"https://api.example.com"⟩
        ⟨"/item/\x7b\x7b.item_id\x7d\x7d.json", []⟩
        [("item_id", ParseConfigValue (.val (.str ("$js: ctx.src.id"))))] =
      .ok (.dynamic ("js")
        ("'https://api.example.com/item/' + ctx.src.id + '.json'") (""))) := by
  intro h
  have hc : buildURLSpec (fun _ _ => .error ("unused"))
      ⟨"https://api.example.com"⟩
      ⟨"/item/\x7b\x7b.item_id\x7d\x7d.json", []⟩
      [("item_id", ParseConfigValue (.val (.str ("$js: ctx.src.id"))))] =
      .ok (.dynamic ("js")
        ("'https://api.example.com' + '/item/' + ctx.src.id + '.json'")
        ("")) := rfl
  rw [hc] at h
  injection h with h1
  injection h1 with hl he
  exact absurd he (by decide)

/-- C8 (amended): for path `/item/{{.item_id}}.json` and the dynamic
user parameter `item_id = "$js: ctx.src.id"`, the path compiles to the
JS concatenation `'/item/' + ctx.src.id + '.json'` (the
`'prefix' + <expr> + 'suffix'` pattern), and the compiled URL
`ValueSpec` is the JS expression
`'<base>' + '/item/' + ctx.src.id + '.json'` — the rendered base URL as
its own leading string literal, denoting the same URL string as the
claimed single-literal form. -/
theorem C8_url_expression_concatenation :
    convertGoTemplateToJS ("/item/\x7b\x7b.item_id\x7d\x7d.json")
        [("item_id", ParseConfigValue (.val (.str ("$js: ctx.src.id"))))] =
      .ok ("'/item/' + ctx.src.id + '.json'") ∧
    buildURLSpec (fun _ _ => .error ("unused")) ⟨"https://api.example.com"⟩
        ⟨"/item/\x7b\x7b.item_id\x7d\x7d.json", []⟩
        [("item_id", ParseConfigValue (.val (.str ("$js: ctx.src.id"))))] =
      .ok (.dynamic ("js")
        ("'https://api.example.com' + '/item/' + ctx.src.id + '.json'")
        ("")) := by
  constructor <;> rfl

theorem dfsVisit_zero (stages : List (String × List String)) (id : String)
    (st : DfsState) : dfsVisit stages 0 id st = none := by
  rw [dfsVisit]

theorem dfsVisit_succ (stages : List (String × List String)) (fuel : Nat)
    (id : String) (st : DfsState) :
    dfsVisit stages (fuel + 1) id st =
      match dfsDeps stages fuel (depsOf stages id)
          ⟨id :: st.visited, id :: st.recStack⟩ with
      | none => none
      | some (true, st2) => some (true, st2)
      | some (false, st2) =>
        some (false, ⟨st2.visited, st2.recStack.erase id⟩) := by
  rw [dfsVisit]

theorem dfsDeps_nil (stages : List (String × List String)) (fuel : Nat)
    (st : DfsState) : dfsDeps stages fuel [] st = some (false, st) := by
  rw [dfsDeps]

theorem dfsDeps_cons (stages : List (String × List String)) (fuel : Nat)
    (d : String) (ds : List String) (st : DfsState) :
    dfsDeps stages fuel (d :: ds) st =
      if d ∈ st.visited then
        if d ∈ st.recStack then some (true, st)
        else dfsDeps stages fuel ds st
      else
        match dfsVisit stages fuel d st with
        | none => none
        | some (true, st2) => some (true, st2)
        | some (false, st2) => dfsDeps stages fuel ds st2 := by
  rw [dfsDeps]

theorem acc_transGen {α : Type} {r : α → α → Prop} {a : α} (h : Acc r a) :
    Acc (Relation.TransGen r) a := by
  induction h with
  | intro x _ ih =>
    constructor
    intro y hy
    cases hy with
    | single hr => exact ih _ hr
    | tail hty hr => exact (ih _ hr).inv hty

theorem acc_not_transGen_self {α : Type} {r : α → α → Prop} {v : α}
    (h : Acc (Relation.TransGen r) v) : ¬ Relation.TransGen r v v := by
  induction h with
  | intro x _ ih => exact fun hxx => ih x hxx hxx

theorem length_filter_mono {α : Type} (p q : α → Bool) (l : List α)
    (h : ∀ x, p x = true → q x = true) :
    (l.filter p).length ≤ (l.filter q).length := by
  induction l with
  | nil => simp
  | cons a t ih =>
    simp only [List.filter_cons]
    by_cases hp : p a = true
    · rw [if_pos hp, if_pos (h a hp)]
      simpa using ih
    · rw [if_neg hp]
      by_cases hq : q a = true
      · rw [if_pos hq]
        exact Nat.le_succ_of_le ih
      · rw [if_neg hq]
        exact ih

theorem alookup_eq_none {α : Type} {l : List (String × α)} {k : String}
    (h : k ∉ l.map Prod.fst) : alookup l k = none := by
  induction l with
  | nil => rfl
  | cons e t ih =>
    obtain ⟨a, b⟩ := e
    simp only [List.map_cons, List.mem_cons, not_or] at h
    simp only [alookup]
    rw [if_neg h.1]
    exact ih h.2

theorem unvisitedCount_mono (stages : List (String × List String))
    {st st' : DfsState} (h : ∀ v, v ∈ st.visited → v ∈ st'.visited) :
    unvisitedCount stages st' ≤ unvisitedCount stages st := by
  unfold unvisitedCount
  apply length_filter_mono
  intro x hx
  simp only [decide_eq_true_eq] at hx ⊢
  exact fun hmem => hx (h x hmem)

theorem unvisitedCount_mark_lt (stages : List (String × List String))
    (st : DfsState) (id : String) (rs : List String)
    (hid : id ∈ stages.map Prod.fst) (hnv : id ∉ st.visited) :
    unvisitedCount stages ⟨id :: st.visited, rs⟩ <
      unvisitedCount stages st := by
  have aux : ∀ l : List String, id ∈ l →
      (l.filter (fun x => decide (x ∉ id :: st.visited))).length <
        (l.filter (fun x => decide (x ∉ st.visited))).length := by
    intro l
    induction l with
    | nil => intro hmem; exact absurd hmem (List.not_mem_nil id)
    | cons a t ih =>
      intro hmem
      simp only [List.filter_cons]
      by_cases heq : a = id
      · subst heq
        rw [if_neg (by simp)]
        rw [if_pos (by simpa using hnv)]
        simp only [List.length_cons]
        refine Nat.lt_succ_of_le (length_filter_mono _ _ t ?_)
        intro x hx
        simp only [decide_eq_true_eq] at hx ⊢
        exact fun hm => hx (List.mem_cons_of_mem _ hm)
      · have hpred : (decide (a ∉ id :: st.visited)) =
            (decide (a ∉ st.visited)) := by
          rw [decide_eq_decide]
          simp [List.mem_cons, heq]
        have hmem' : id ∈ t := by
          cases List.mem_cons.mp hmem with
          | inl h0 => exact absurd h0.symm heq
          | inr h0 => exact h0
        rw [hpred]
        by_cases hv : (decide (a ∉ st.visited)) = true
        · rw [if_pos hv, if_pos hv]
          simpa using ih hmem'
        · rw [if_neg hv, if_neg hv]
          exact ih hmem'
  exact aux (stages.map Prod.fst) hid

theorem dfsDeps_mono (stages : List (String × List String)) (fuel : Nat)
    (hvis : VisitMono stages fuel) : DepsMono stages fuel := by
  intro ds
  induction ds with
  | nil =>
    intro st b st' h v hv
    rw [dfsDeps_nil] at h
    simp only [Option.some.injEq, Prod.mk.injEq] at h
    rw [← h.2]
    exact hv
  | cons d t ih =>
    intro st b st' h v hv
    rw [dfsDeps_cons] at h
    by_cases hdv : d ∈ st.visited
    · rw [if_pos hdv] at h
      by_cases hdr : d ∈ st.recStack
      · rw [if_pos hdr] at h
        simp only [Option.some.injEq, Prod.mk.injEq] at h
        rw [← h.2]
        exact hv
      · rw [if_neg hdr] at h
        exact ih st b st' h v hv
    · rw [if_neg hdv] at h
      cases hvv : dfsVisit stages fuel d st with
      | none =>
        rw [hvv] at h
        have h' : (none : Option (Bool × DfsState)) = some (b, st') := h
        exact Option.noConfusion h'
      | some r =>
        obtain ⟨bb, st2⟩ := r
        rw [hvv] at h
        cases bb
        · have h' : dfsDeps stages fuel t st2 = some (b, st') := h
          exact ih st2 b st' h' v (hvis d st false st2 hvv v hv)
        · have h' : (some (true, st2) : Option (Bool × DfsState)) =
              some (b, st') := h
          simp only [Option.some.injEq, Prod.mk.injEq] at h'
          rw [← h'.2]
          exact hvis d st true st2 hvv v hv

theorem dfsVisit_mono (stages : List (String × List String)) :
    ∀ fuel, VisitMono stages fuel := by
  intro fuel
  induction fuel with
  | zero =>
    intro id st b st' h
    rw [dfsVisit_zero] at h
    exact Option.noConfusion h
  | succ n ih =>
    intro id st b st' h v hv
    rw [dfsVisit_succ] at h
    cases hd : dfsDeps stages n (depsOf stages id)
        ⟨id :: st.visited, id :: st.recStack⟩ with
    | none =>
      rw [hd] at h
      have h' : (none : Option (Bool × DfsState)) = some (b, st') := h
      exact Option.noConfusion h'
    | some r =>
      obtain ⟨bb, st2⟩ := r
      rw [hd] at h
      have hmono := dfsDeps_mono stages n ih (depsOf stages id)
        ⟨id :: st.visited, id :: st.recStack⟩ bb st2 hd v
        (List.mem_cons_of_mem _ hv)
      cases bb
      · have h' : (some (false, ⟨st2.visited, st2.recStack.erase id⟩) :
            Option (Bool × DfsState)) = some (b, st') := h
        simp only [Option.some.injEq, Prod.mk.injEq] at h'
        rw [← h'.2]
        exact hmono
      · have h' : (some (true, st2) : Option (Bool × DfsState)) =
            some (b, st') := h
        simp only [Option.some.injEq, Prod.mk.injEq] at h'
        rw [← h'.2]
        exact hmono

theorem dfsDeps_false_post (stages : List (String × List String))
    (fuel : Nat) (hvis : VisitPost stages fuel) : DepsPost stages fuel := by
  intro ds
  induction ds with
  | nil =>
    intro st st' h hinv
    rw [dfsDeps_nil] at h
    simp only [Option.some.injEq, Prod.mk.injEq, true_and] at h
    subst h
    exact ⟨hinv, rfl, fun v hv => hv, fun d hd => absurd hd (List.not_mem_nil d)⟩
  | cons d t ih =>
    intro st st' h hinv
    rw [dfsDeps_cons] at h
    by_cases hdv : d ∈ st.visited
    · rw [if_pos hdv] at h
      by_cases hdr : d ∈ st.recStack
      · rw [if_pos hdr] at h
        simp at h
      · rw [if_neg hdr] at h
        obtain ⟨hinv2, hrec2, hmono2, hall2⟩ := ih st st' h hinv
        refine ⟨hinv2, hrec2, hmono2, ?_⟩
        intro x hx
        cases List.mem_cons.mp hx with
        | inl he => subst he; exact hinv.1 x hdv hdr
        | inr ht => exact hall2 x ht
    · rw [if_neg hdv] at h
      cases hvv : dfsVisit stages fuel d st with
      | none =>
        rw [hvv] at h
        have h' : (none : Option (Bool × DfsState)) = some (false, st') := h
        exact Option.noConfusion h'
      | some r =>
        obtain ⟨bb, st2⟩ := r
        rw [hvv] at h
        cases bb
        · have h' : dfsDeps stages fuel t st2 = some (false, st') := h
          obtain ⟨hinv2, hrec2, hmono2, hid2, hacc2⟩ := hvis d st st2 hvv hinv
          obtain ⟨hinv3, hrec3, hmono3, hall3⟩ := ih st2 st' h' hinv2
          refine ⟨hinv3, ?_, ?_, ?_⟩
          · rw [hrec3, hrec2]
          · exact fun v hv => hmono3 v (hmono2 v hv)
          · intro x hx
            cases List.mem_cons.mp hx with
            | inl he => subst he; exact hacc2
            | inr ht => exact hall3 x ht
        · have h' : (some (true, st2) : Option (Bool × DfsState)) =
              some (false, st') := h
          simp at h'

theorem dfsVisit_false_post (stages : List (String × List String)) :
    ∀ fuel, VisitPost stages fuel := by
  intro fuel
  induction fuel with
  | zero =>
    intro id st st' h
    rw [dfsVisit_zero] at h
    exact Option.noConfusion h
  | succ n ih =>
    intro id st st' h hinv
    rw [dfsVisit_succ] at h
    cases hd : dfsDeps stages n (depsOf stages id)
        ⟨id :: st.visited, id :: st.recStack⟩ with
    | none =>
      rw [hd] at h
      have h' : (none : Option (Bool × DfsState)) = some (false, st') := h
      exact Option.noConfusion h'
    | some r =>
      obtain ⟨bb, st2⟩ := r
      rw [hd] at h
      cases bb
      · have h' : (some (false, ⟨st2.visited, st2.recStack.erase id⟩) :
            Option (Bool × DfsState)) = some (false, st') := h
        simp only [Option.some.injEq, Prod.mk.injEq, true_and] at h'
        have hinv1 : DfsInv stages ⟨id :: st.visited, id :: st.recStack⟩ := by
          constructor
          · intro v hv hnr
            simp only [List.mem_cons, not_or] at hv hnr
            cases hv with
            | inl h0 => exact absurd h0 hnr.1
            | inr h0 => exact hinv.1 v h0 hnr.2
          · intro v hv
            simp only [List.mem_cons] at hv ⊢
            cases hv with
            | inl h0 => exact Or.inl h0
            | inr h0 => exact Or.inr (hinv.2 v h0)
        obtain ⟨hinv2, hrec2, hmono2, hall2⟩ :=
          dfsDeps_false_post stages n ih (depsOf stages id)
            ⟨id :: st.visited, id :: st.recStack⟩ st2 hd hinv1
        have hrec2' : st2.recStack = id :: st.recStack := hrec2
        have hacc : Acc (depRel stages) id := by
          constructor
          intro y hy
          exact hall2 y hy
        have hmono' : ∀ v, v ∈ st.visited → v ∈ st2.visited :=
          fun v hv => hmono2 v (List.mem_cons_of_mem _ hv)
        have hidv : id ∈ st2.visited := hmono2 id (List.mem_cons_self _ _)
        refine ⟨?_, ?_, ?_, ?_, hacc⟩
        · rw [← h']
          constructor
          · intro v hv hnr
            by_cases hvid : v = id
            · subst hvid; exact hacc
            · apply hinv2.1 v hv
              rw [hrec2', List.erase_cons_head] at hnr
              rw [hrec2']
              simp only [List.mem_cons, not_or]
              exact ⟨hvid, hnr⟩
          · intro v hv
            rw [hrec2', List.erase_cons_head] at hv
            exact hmono' v (hinv.2 v hv)
        · rw [← h']
          show st2.recStack.erase id = st.recStack
          rw [hrec2', List.erase_cons_head]
        · intro v hv
          rw [← h']
          exact hmono' v hv
        · rw [← h']
          exact hidv
      · have h' : (some (true, st2) : Option (Bool × DfsState)) =
            some (false, st') := h
        simp at h'

theorem dfsDeps_nx (stages : List (String × List String)) (fuel : Nat)
    (hvis : VisitNX stages fuel) (hmono : VisitMono stages fuel) :
    DepsNX stages fuel := by
  intro ds
  induction ds with
  | nil =>
    intro st _
    rw [dfsDeps_nil]
    exact fun h => Option.noConfusion h
  | cons d t ih =>
    intro st huc
    rw [dfsDeps_cons]
    by_cases hdv : d ∈ st.visited
    · rw [if_pos hdv]
      by_cases hdr : d ∈ st.recStack
      · rw [if_pos hdr]
        exact fun h => Option.noConfusion h
      · rw [if_neg hdr]
        exact ih st huc
    · rw [if_neg hdv]
      cases hvv : dfsVisit stages fuel d st with
      | none => exact absurd hvv (hvis d st huc hdv)
      | some r =>
        obtain ⟨bb, st2⟩ := r
        cases bb
        · show dfsDeps stages fuel t st2 ≠ none
          refine ih st2 (Nat.lt_of_le_of_lt (unvisitedCount_mono stages ?_) huc)
          exact fun v hv => hmono d st false st2 hvv v hv
        · show (some (true, st2) : Option (Bool × DfsState)) ≠ none
          exact fun h => Option.noConfusion h

theorem dfsVisit_nx (stages : List (String × List String)) :
    ∀ fuel, VisitNX stages fuel := by
  intro fuel
  induction fuel with
  | zero =>
    intro id st huc
    exact absurd huc (Nat.not_lt_zero _)
  | succ n ih =>
    intro id st huc hnv
    rw [dfsVisit_succ]
    by_cases hid : id ∈ stages.map Prod.fst
    · have huc1 : unvisitedCount stages
          ⟨id :: st.visited, id :: st.recStack⟩ < n := by
        have := unvisitedCount_mark_lt stages st id (id :: st.recStack) hid hnv
        omega
      cases hd : dfsDeps stages n (depsOf stages id)
          ⟨id :: st.visited, id :: st.recStack⟩ with
      | none =>
        exact absurd hd (dfsDeps_nx stages n ih (dfsVisit_mono stages n)
          (depsOf stages id) _ huc1)
      | some r =>
        obtain ⟨bb, st2⟩ := r
        cases bb
        · show (some (false, ⟨st2.visited, st2.recStack.erase id⟩) :
              Option (Bool × DfsState)) ≠ none
          exact fun h => Option.noConfusion h
        · show (some (true, st2) : Option (Bool × DfsState)) ≠ none
          exact fun h => Option.noConfusion h
    · have hdeps : depsOf stages id = [] := by
        unfold depsOf
        rw [alookup_eq_none hid]
        rfl
      rw [hdeps, dfsDeps_nil]
      exact fun h => Option.noConfusion h

theorem validateRoots_acc (stages : List (String × List String))
    (fuel : Nat) :
    ∀ roots st, validateRoots stages fuel roots st = some false →
      DfsInv stages st → st.recStack = [] →
      ∀ id, id ∈ roots → Acc (depRel stages) id := by
  intro roots
  induction roots with
  | nil =>
    intro st _ _ _ id hid
    exact absurd hid (List.not_mem_nil id)
  | cons a t ih =>
    intro st h hinv hrs id hid
    rw [validateRoots] at h
    by_cases hav : a ∈ st.visited
    · rw [if_pos hav] at h
      cases List.mem_cons.mp hid with
      | inl he =>
        subst he
        exact hinv.1 id hav (by rw [hrs]; exact List.not_mem_nil id)
      | inr ht => exact ih st h hinv hrs id ht
    · rw [if_neg hav] at h
      cases hvv : dfsVisit stages fuel a st with
      | none =>
        rw [hvv] at h
        have h' : (none : Option Bool) = some false := h
        exact Option.noConfusion h'
      | some r =>
        obtain ⟨bb, st2⟩ := r
        rw [hvv] at h
        cases bb
        · have h' : validateRoots stages fuel t st2 = some false := h
          obtain ⟨hinv2, hrec2, _, _, hacc⟩ :=
            dfsVisit_false_post stages fuel a st st2 hvv hinv
          have hrs2 : st2.recStack = [] := by rw [hrec2, hrs]
          cases List.mem_cons.mp hid with
          | inl he => subst he; exact hacc
          | inr ht => exact ih st2 h' hinv2 hrs2 id ht
        · have h' : (some true : Option Bool) = some false := h
          simp at h'

theorem validateRoots_nx (stages : List (String × List String))
    (fuel : Nat) :
    ∀ roots st, unvisitedCount stages st < fuel →
      validateRoots stages fuel roots st ≠ none := by
  intro roots
  induction roots with
  | nil =>
    intro st _
    rw [validateRoots]
    exact fun h => Option.noConfusion h
  | cons a t ih =>
    intro st huc
    rw [validateRoots]
    by_cases hav : a ∈ st.visited
    · rw [if_pos hav]
      exact ih st huc
    · rw [if_neg hav]
      cases hvv : dfsVisit stages fuel a st with
      | none => exact absurd hvv (dfsVisit_nx stages fuel a st huc hav)
      | some r =>
        obtain ⟨bb, st2⟩ := r
        cases bb
        · show validateRoots stages fuel t st2 ≠ none
          refine ih st2 (Nat.lt_of_le_of_lt (unvisitedCount_mono stages ?_) huc)
          exact fun v hv => dfsVisit_mono stages fuel a st false st2 hvv v hv
        · show (some true : Option Bool) ≠ none
          exact fun h => Option.noConfusion h

/-- The fuel `stages.length + 1` that `Validate` passes to the DFS is
never exhausted: the `none` branch of `Validate` is dead code in the
model, matching the unbounded recursion of the Go original. -/
theorem validateRoots_no_exhaust (stages : List (String × List String)) :
    validateRoots stages (stages.length + 1) (stages.map Prod.fst)
      ⟨[], []⟩ ≠ none := by
  apply validateRoots_nx
  have hcount : unvisitedCount stages (⟨[], []⟩ : DfsState) =
      stages.length := by
    unfold unvisitedCount
    have hpred : (fun id : String =>
        decide (id ∉ (⟨[], []⟩ : DfsState).visited)) = fun _ => true := by
      funext x
      simp
    rw [hpred, List.filter_true, List.length_map]
  omega

theorem validate_acc_of_roots_false (stages : List (String × List String))
    (h : validateRoots stages (stages.length + 1) (stages.map Prod.fst)
      ⟨[], []⟩ = some false) :
    ∀ v, Acc (depRel stages) v := by
  have hroots : ∀ id, id ∈ stages.map Prod.fst → Acc (depRel stages) id :=
    validateRoots_acc stages (stages.length + 1) (stages.map Prod.fst)
      ⟨[], []⟩ h
      ⟨fun v hv _ => absurd hv (List.not_mem_nil v),
        fun v hv => absurd hv (List.not_mem_nil v)⟩ rfl
  intro v
  by_cases hv : v ∈ stages.map Prod.fst
  · exact hroots v hv
  · constructor
    intro y hy
    have hy' : y ∈ depsOf stages v := hy
    have hdeps : depsOf stages v = [] := by
      unfold depsOf
      rw [alookup_eq_none hv]
      rfl
    rw [hdeps] at hy'
    exact absurd hy' (List.not_mem_nil y)

/-- C2: for every pipeline whose stage dependency graph contains a cycle
(a nonempty dependency path from some stage `v` back to itself),
`Validate` returns an error — the DFS with its recursion stack detects
the back edge — and `Start` on a not-yet-running pipeline returns that
validation error wrapped in `pipeline validation failed:`; the `.error`
result of `Start` carries no worker list, so no stage worker goroutine is
ever spawned for a cyclic pipeline. -/
theorem C2_cycle_fails_validation_and_start
    (stages : List (String × List String)) (v : String)
    (hcyc : Relation.TransGen (depRel stages) v v) :
    ∃ e, Validate stages = .error e ∧
      Start stages false = .error (("pipeline validation failed: ") ++ e) := by
  have hval : ∃ e, Validate stages = Except.error e := by
    unfold Validate
    cases hm : findMissingDep stages stages with
    | some p =>
      obtain ⟨id, dep⟩ := p
      exact ⟨_, rfl⟩
    | none =>
      cases hr : validateRoots stages (stages.length + 1)
          (stages.map Prod.fst) ⟨[], []⟩ with
      | none => exact ⟨_, rfl⟩
      | some b =>
        cases b
        · exact absurd hcyc (acc_not_transGen_self
            (acc_transGen (validate_acc_of_roots_false stages hr v)))
        · exact ⟨_, rfl⟩
  obtain ⟨e, he⟩ := hval
  refine ⟨e, he, ?_⟩
  have hstart : Start stages false =
      match Validate stages with
      | .error e => .error (("pipeline validation failed: ") ++ e)
      | .ok _ => .ok (stages.map Prod.fst) := rfl
  rw [hstart, he]

/-- Witness for C2: the three-stage cycle `a → b → c → a`. -/
theorem C2_witness :
    ∃ e, Validate [("a", ["b"]), ("b", ["c"]), ("c", ["a"])] = .error e ∧
      Start [("a", ["b"]), ("b", ["c"]), ("c", ["a"])] false =
        .error (("pipeline validation failed: ") ++ e) := by
  have hac : depRel [("a", ["b"]), ("b", ["c"]), ("c", ["a"])] "a" "c" := by
    show ("a" : String) ∈ depsOf [("a", ["b"]), ("b", ["c"]), ("c", ["a"])] "c"
    decide
  have hcb : depRel [("a", ["b"]), ("b", ["c"]), ("c", ["a"])] "c" "b" := by
    show ("c" : String) ∈ depsOf [("a", ["b"]), ("b", ["c"]), ("c", ["a"])] "b"
    decide
  have hba : depRel [("a", ["b"]), ("b", ["c"]), ("c", ["a"])] "b" "a" := by
    show ("b" : String) ∈ depsOf [("a", ["b"]), ("b", ["c"]), ("c", ["a"])] "a"
    decide
  exact C2_cycle_fails_validation_and_start _ "a"
    (Relation.TransGen.tail
      (Relation.TransGen.tail (Relation.TransGen.single hac) hcb) hba)

end GoPipeline
